import Mathlib

/-!
A shallow embedding of `excel_formula_parser.py` (ExcelToSQL core): the
tokenizer `ExcelTokenizer`, the recursive-descent parser `ExcelParser`, the
converter `ExcelToSQLConverter` and the top-level driver
`convert_excel_formula_to_sql`, together with theorems about them.

Modelling conventions:
* Python strings are `String` / `List Char`; scanning positions are explicit
  `Nat` offsets or suffix lists.
* Python `float` values produced by `float(<decimal literal>)` are modelled as
  exact decimals (`PyFloat`: an integer significand over a power of ten);
  `str` of such a float is its shortest decimal form, which the model
  reproduces exactly for every literal short enough to round-trip through a
  double (all literals considered here).  The dynamically-typed `NumberNode`
  payload (a `float` from the tokenizer, the literal `int` 0 from the parser
  fallback) is the sum `PyNum`.
* Python dicts with `.get(key, default)` are association lists with `dictGet`.
* The only operation in the whole pipeline that can raise for a well-typed
  argument is the parser's `self.tokens[-1]` on an empty token list
  (`IndexError`); the parser is therefore written in `Except String`, and the
  driver's `try/except` is the `match` in `convert_excel_formula_to_sql`.
  Recursion in the tokenizer, parser and a few regex helpers is made total
  with an explicit fuel argument; fuel is always chosen large enough that the
  fuel-exhaustion branches are unreachable on the call paths used here.
* Regexes are hand-translated; each one used by the source is deterministic
  (no backtracking changes the match), which the individual comments note.
-/

/-! ### Tokens -/

inductive TokenType where
  | NUMBER | STRING | CELL_REF | RANGE_REF | TABLE_REF | FUNCTION
  | OPERATOR | LPAREN | RPAREN | COMMA | SHEET_REF | PERCENT | EOF
deriving DecidableEq, Repr

/-- A Python `float` holding the exact decimal `num / 10 ^ exp`.  Every float
in the pipeline comes from `float(<decimal literal>)`, possibly divided by
100 (the `%` suffix), so this representation is exact. -/
structure PyFloat where
  num : Int
  exp : Nat
deriving DecidableEq, Repr

/-- The dynamically typed `Token.value` payload: `None`, a float, a string, or
the three-field dict produced for table references. -/
inductive TokenValue where
  | vNone
  | vNum (f : PyFloat)
  | vStr (s : String)
  | vTable (table column full : String)
deriving DecidableEq, Repr

def TokenValue.getStr : TokenValue → String
  | .vStr s => s
  | _ => ""

def TokenValue.getNum : TokenValue → PyFloat
  | .vNum f => f
  | _ => ⟨0, 0⟩

def TokenValue.getTable : TokenValue → String
  | .vTable t _ _ => t
  | _ => ""

def TokenValue.getColumn : TokenValue → String
  | .vTable _ c _ => c
  | _ => ""

def TokenValue.getFull : TokenValue → String
  | .vTable _ _ f => f
  | _ => ""

structure Token where
  type : TokenType
  value : TokenValue
  position : Nat
deriving DecidableEq, Repr

/-! ### Character classes (ASCII reading of the Python regex classes) -/

def isUpperAZ (c : Char) : Bool := 'A' ≤ c && c ≤ 'Z'
def isLowerAZ (c : Char) : Bool := 'a' ≤ c && c ≤ 'z'
def isAlphaAZ (c : Char) : Bool := isUpperAZ c || isLowerAZ c
/-- The regex class `\w` = `[A-Za-z0-9_]`. -/
def isWordChar (c : Char) : Bool := isAlphaAZ c || c.isDigit || c = '_'
/-- The regex class `[A-Za-z_]` (identifier start). -/
def isIdentStart (c : Char) : Bool := isAlphaAZ c || c = '_'

def strLower (s : String) : String := String.mk (s.data.map Char.toLower)
def strUpper (s : String) : String := String.mk (s.data.map Char.toUpper)

/-- `self.formula[pos] == c` with an implicit bounds check (Python code always
guards indexing with `pos < length`; an out-of-range probe is `false`). -/
def headIs (c : Char) : List Char → Bool
  | d :: _ => d = c
  | [] => false

/-- `p(self.formula[pos])` with an implicit bounds check. -/
def headSat (p : Char → Bool) : List Char → Bool
  | d :: _ => p d
  | [] => false

/-- `d.get(k, dflt)` on an association list. -/
def dictGet (d : List (String × String)) (k : String) (dflt : String) : String :=
  (d.lookup k).getD dflt

namespace ExcelTokenizer

/-- `formula.lstrip('=').strip()` from `ExcelTokenizer.__init__`. -/
def stripFormula (s : String) : List Char :=
  let l := (s.data.dropWhile (fun c => c = '=')).dropWhile Char.isWhitespace
  (l.reverse.dropWhile Char.isWhitespace).reverse

/-- Body of the scan loop in `_match_string` (position is just past the opening
quote).  Returns the decoded value and the number of characters consumed after
the opening quote.  A doubled `""` contributes one literal quote; a lone `"`
closes; end of input closes without error (best-effort token). -/
def match_string_aux : List Char → List Char × Nat
  | [] => ([], 0)
  | c :: rest =>
    if c = '"' then
      match rest with
      | c2 :: rest2 =>
        if c2 = '"' then
          let (v, n) := match_string_aux rest2
          ('"' :: v, n + 2)
        else ([], 1)
      | [] => ([], 1)
    else
      let (v, n) := match_string_aux rest
      (c :: v, n + 1)

/-- `_match_string`. -/
def match_string (s : List Char) : Option (TokenValue × Nat) :=
  match s with
  | c :: rest =>
    if c = '"' then
      let (v, n) := match_string_aux rest
      some (.vStr (String.mk v), n + 1)
    else none
  | [] => none

/-- The bracket-counting loop of `_match_table_reference`, started at the `[`.
Returns the number of characters consumed (the balanced bracket group
including both brackets, or everything to the end of input if unbalanced). -/
def scan_brackets : List Char → Nat → Nat
  | [], _ => 0
  | c :: rest, depth =>
    if c = '[' then 1 + scan_brackets rest (depth + 1)
    else if c = ']' then
      if depth = 1 then 1 else 1 + scan_brackets rest (depth - 1)
    else 1 + scan_brackets rest depth

/-- `_match_table_reference`: `[A-Za-z_]\w*` immediately followed by `[`, then
a depth-counted bracket group.  (The guard regex `[A-Za-z_]\w*\[` is
deterministic: `[` is not a `\w` character, so no backtracking applies.) -/
def match_table_reference (s : List Char) : Option (TokenValue × Nat) :=
  match s with
  | [] => none
  | c :: _ =>
    if isIdentStart c then
      let name := s.takeWhile isWordChar
      let rest := s.drop name.length
      if headIs '[' rest then
        let consumed := scan_brackets rest 0
        some (.vTable (String.mk name) (String.mk (rest.take consumed))
                (String.mk (name ++ rest.take consumed)),
              name.length + consumed)
      else none
    else none

/-- The bare-identifier arm `re.match(r'([A-Za-z_]\w*)!', ...)` of
`_match_sheet_reference` (deterministic: `!` is not a `\w` character). -/
def bare_sheet (s : List Char) : Option (String × Nat) :=
  match s with
  | [] => none
  | c :: _ =>
    if isIdentStart c then
      let name := s.takeWhile isWordChar
      if headIs '!' (s.drop name.length) then some (String.mk name, name.length + 1)
      else none
    else none

/-- `_match_sheet_reference`.  Note the faithful quirk: if the input starts
with a quote but the quoted form does not complete (`'name'` not followed by
`!`), the bare-identifier regex is tried from wherever the quoted scan left
the cursor, not from the original start. -/
def match_sheet_reference (s : List Char) : Option (TokenValue × Nat) :=
  if headIs '\'' s then
    let rest := s.tail
    let name := rest.takeWhile (fun c => c ≠ '\'')
    let tail := rest.drop name.length
    if headIs '\'' tail then
      if headIs '!' tail.tail then some (.vStr (String.mk name), name.length + 3)
      else (bare_sheet tail.tail).map (fun p => (.vStr p.1, name.length + 2 + p.2))
    else
      -- the scan hit end of input without a closing quote
      (bare_sheet tail).map (fun p => (.vStr p.1, name.length + 1 + p.2))
  else (bare_sheet s).map (fun p => (.vStr p.1, p.2))

/-- The pattern `\$?[A-Z]+\$?\d+` (uppercase only — the source compiles it
without `re.IGNORECASE`).  Deterministic: a letter can never satisfy `\$?\d+`,
so greedy matching needs no backtracking.  Returns the matched length. -/
def cell_pattern (s : List Char) : Option Nat :=
  let p1 : Nat × List Char := if headIs '$' s then (1, s.tail) else (0, s)
  let ls := p1.2.takeWhile isUpperAZ
  if ls.isEmpty then none else
  let s2 := p1.2.drop ls.length
  let p2 : Nat × List Char := if headIs '$' s2 then (1, s2.tail) else (0, s2)
  let ds := p2.2.takeWhile Char.isDigit
  if ds.isEmpty then none else some (p1.1 + ls.length + p2.1 + ds.length)

/-- `_match_range`: two cell patterns joined by `:`. -/
def match_range (s : List Char) : Option (TokenValue × Nat) :=
  match cell_pattern s with
  | none => none
  | some n1 =>
    if headIs ':' (s.drop n1) then
      match cell_pattern (s.drop n1).tail with
      | none => none
      | some n2 =>
        some (.vStr (String.mk (s.take (n1 + 1 + n2))), n1 + 1 + n2)
    else none

/-- `_match_cell_reference`: the raw matched text is the token value (no case
normalization is performed by the source). -/
def match_cell_reference (s : List Char) : Option (TokenValue × Nat) :=
  (cell_pattern s).map (fun n => (.vStr (String.mk (s.take n)), n))

def digitsToNat (ds : List Char) : Nat :=
  ds.foldl (fun acc c => acc * 10 + (c.toNat - 48)) 0

/-- `float(value)` for a matched decimal literal, as an exact decimal. -/
def decimal_value (ip fp : List Char) : PyFloat :=
  ⟨(digitsToNat ip * 10 ^ fp.length + digitsToNat fp : Nat), fp.length⟩

/-- `_match_number`: regex `\d+\.?\d*|\.\d+` (deterministic), then the `%`
suffix divides the value by 100 and is consumed. -/
def match_number_core (s : List Char) : Option (PyFloat × Nat) :=
  match s with
  | [] => none
  | c :: rest =>
    if c.isDigit then
      let ip := s.takeWhile Char.isDigit
      if headIs '.' (s.drop ip.length) then
        let fp := (s.drop ip.length).tail.takeWhile Char.isDigit
        some (decimal_value ip fp, ip.length + 1 + fp.length)
      else some (decimal_value ip [], ip.length)
    else if c = '.' then
      if headSat Char.isDigit rest then
        let fp := rest.takeWhile Char.isDigit
        some (decimal_value [] fp, 1 + fp.length)
      else none
    else none

def match_number (s : List Char) : Option (TokenValue × Nat) :=
  match match_number_core s with
  | none => none
  | some (f, n) =>
    if headIs '%' (s.drop n) then some (.vNum ⟨f.num, f.exp + 2⟩, n + 1)
    else some (.vNum f, n)

/-- `_match_function`: `[A-Z_][A-Z0-9_.]*(?=\()` with `re.IGNORECASE`
(deterministic: `(` is not in the repeated class, so the lookahead can only
succeed at the end of the maximal run); the value is uppercased. -/
def match_function (s : List Char) : Option (TokenValue × Nat) :=
  match s with
  | [] => none
  | c :: _ =>
    if isIdentStart c then
      let run := s.takeWhile (fun ch => isAlphaAZ ch || ch.isDigit || ch = '_' || ch = '.')
      if headIs '(' (s.drop run.length) then
        some (.vStr (String.mk (run.map Char.toUpper)), run.length)
      else none
    else none

/-- `_match_operator`: the candidate list `['<>', '<=', '>=', '<', '>', '=',
'+', '-', '*', '/', '^', '&']` is tried in order (multi-character operators
first); grouping the comparisons by first character is equivalent. -/
def match_operator (s : List Char) : Option (TokenValue × Nat) :=
  match s with
  | [] => none
  | c :: rest =>
    if c = '<' then
      if headIs '>' rest then some (.vStr "<>", 2)
      else if headIs '=' rest then some (.vStr "<=", 2)
      else some (.vStr "<", 1)
    else if c = '>' then
      if headIs '=' rest then some (.vStr ">=", 2)
      else some (.vStr ">", 1)
    else if c = '=' then some (.vStr "=", 1)
    else if c = '+' then some (.vStr "+", 1)
    else if c = '-' then some (.vStr "-", 1)
    else if c = '*' then some (.vStr "*", 1)
    else if c = '/' then some (.vStr "/", 1)
    else if c = '^' then some (.vStr "^", 1)
    else if c = '&' then some (.vStr "&", 1)
    else none

/-- `_match_punctuation`. -/
def match_punctuation (s : List Char) : Option (TokenType × TokenValue × Nat) :=
  match s with
  | [] => none
  | c :: _ =>
    if c = '(' then some (.LPAREN, .vStr "(", 1)
    else if c = ')' then some (.RPAREN, .vStr ")", 1)
    else if c = ',' then some (.COMMA, .vStr ",", 1)
    else none

/-- The `or`-chain of matchers in `tokenize`, in source order. -/
def try_matchers (s : List Char) : Option (TokenType × TokenValue × Nat) :=
  match match_string s with
  | some (v, n) => some (.STRING, v, n)
  | none =>
  match match_table_reference s with
  | some (v, n) => some (.TABLE_REF, v, n)
  | none =>
  match match_sheet_reference s with
  | some (v, n) => some (.SHEET_REF, v, n)
  | none =>
  match match_range s with
  | some (v, n) => some (.RANGE_REF, v, n)
  | none =>
  match match_cell_reference s with
  | some (v, n) => some (.CELL_REF, v, n)
  | none =>
  match match_number s with
  | some (v, n) => some (.NUMBER, v, n)
  | none =>
  match match_function s with
  | some (v, n) => some (.FUNCTION, v, n)
  | none =>
  match match_operator s with
  | some (v, n) => some (.OPERATOR, v, n)
  | none => match_punctuation s

/-- The scan loop of `tokenize`.  Every successful matcher consumes at least
one character and unmatched characters are skipped, so `length + 1` fuel always
suffices; the fuel-exhaustion branch is unreachable from `tokenize`. -/
def tokenizeAux : Nat → List Char → Nat → List Token
  | 0, _, pos => [⟨.EOF, .vNone, pos⟩]
  | _ + 1, [], pos => [⟨.EOF, .vNone, pos⟩]
  | fuel + 1, c :: rest, pos =>
    if c.isWhitespace then tokenizeAux fuel rest (pos + 1)
    else
      match try_matchers (c :: rest) with
      | some (t, v, n) =>
        ⟨t, v, pos⟩ :: tokenizeAux fuel ((c :: rest).drop n) (pos + n)
      | none => tokenizeAux fuel rest (pos + 1)

/-- `ExcelTokenizer(formula).tokenize()`. -/
def tokenize (formula : String) : List Token :=
  let s := stripFormula formula
  tokenizeAux (s.length + 1) s 0

end ExcelTokenizer

/-! ### AST nodes -/

/-- The dynamically typed payload of `NumberNode`: the tokenizer stores a
`float`; the parser's malformed-input fallback stores the `int` literal `0`. -/
inductive PyNum where
  | pfloat (f : PyFloat)
  | pint (n : Int)
deriving DecidableEq, Repr

inductive ASTNode where
  | NumberNode (value : PyNum)
  | StringNode (value : String)
  | CellRefNode (cell : String) (sheet : Option String)
  | RangeRefNode (range : String) (sheet : Option String)
  | TableRefNode (table : String) (column : String) (full_ref : String)
  | FunctionNode (name : String) (args : List ASTNode)
  | BinaryOpNode (operator : String) (left right : ASTNode)
  | UnaryOpNode (operator : String) (operand : ASTNode)
deriving Repr

/-! ### Parser -/

namespace ExcelParser

/-- `_current_token`: `tokens[pos]` if in range, else `tokens[-1]`; the latter
raises `IndexError` on an empty list (the pipeline never passes one). -/
def current_token (tokens : List Token) (pos : Nat) : Except String Token :=
  if h : pos < tokens.length then .ok (tokens.get ⟨pos, h⟩)
  else
    match tokens.getLast? with
    | some t => .ok t
    | none => .error "list index out of range"

/-- Result of a parse-level function: the node and the new cursor position. -/
abbrev PResult := Except String (ASTNode × Nat)

/-- The argument loop of `_parse_function`: collect comma-separated
expressions until `)` or `EOF`. -/
def parse_args_loop (tokens : List Token) (recur : Nat → PResult) :
    Nat → List ASTNode → Nat → Except String (List ASTNode × Nat)
  | 0, args, pos => .ok (args, pos)
  | fuel + 1, args, pos => do
    let t ← current_token tokens pos
    if t.type = .RPAREN ∨ t.type = .EOF then .ok (args, pos)
    else do
      let (e, pos1) ← recur pos
      let t2 ← current_token tokens pos1
      if t2.type = .COMMA then parse_args_loop tokens recur fuel (args ++ [e]) (pos1 + 1)
      else if t2.type = .RPAREN then .ok (args ++ [e], pos1)
      else parse_args_loop tokens recur fuel (args ++ [e]) pos1

/-- `_parse_function`. -/
def parse_function (tokens : List Token) (recur : Nat → PResult)
    (fuel : Nat) (pos : Nat) : PResult := do
  let t ← current_token tokens pos
  let fname := t.value.getStr
  let pos1 := pos + 1
  let t2 ← current_token tokens pos1
  if t2.type ≠ .LPAREN then .ok (.FunctionNode fname [], pos1)
  else do
    let (args, pos2) ← parse_args_loop tokens recur fuel [] (pos1 + 1)
    let t3 ← current_token tokens pos2
    if t3.type = .RPAREN then .ok (.FunctionNode fname args, pos2 + 1)
    else .ok (.FunctionNode fname args, pos2)

/-- `_parse_primary`.  `recur` is `_parse_expression` (used for parenthesized
groups and, through `_parse_function`, for arguments).  A token that begins no
primary is consumed and replaced by `NumberNode(0)` — the `int` zero. -/
def parse_primary (tokens : List Token) (recur : Nat → PResult)
    (fuel : Nat) (pos : Nat) : PResult := do
  let token ← current_token tokens pos
  if token.type = .NUMBER then .ok (.NumberNode (.pfloat token.value.getNum), pos + 1)
  else if token.type = .STRING then .ok (.StringNode token.value.getStr, pos + 1)
  else
    let sp : Option String × Nat :=
      if token.type = .SHEET_REF then (some token.value.getStr, pos + 1) else (none, pos)
    let sheet := sp.1
    let pos1 := sp.2
    do
    let token2 ← current_token tokens pos1
    if token2.type = .CELL_REF then .ok (.CellRefNode token2.value.getStr sheet, pos1 + 1)
    else if token2.type = .RANGE_REF then .ok (.RangeRefNode token2.value.getStr sheet, pos1 + 1)
    else if token2.type = .TABLE_REF then
      .ok (.TableRefNode token2.value.getTable token2.value.getColumn token2.value.getFull, pos1 + 1)
    else if token2.type = .FUNCTION then parse_function tokens recur fuel pos1
    else if token2.type = .LPAREN then do
      let (e, pos2) ← recur (pos1 + 1)
      let t3 ← current_token tokens pos2
      if t3.type = .RPAREN then .ok (e, pos2 + 1) else .ok (e, pos2)
    else .ok (.NumberNode (.pint 0), pos1 + 1)

/-- `_parse_unary`: chained prefix `-`/`+`. -/
def parse_unary (tokens : List Token) (recur : Nat → PResult) :
    Nat → Nat → PResult
  | 0, pos => .ok (.NumberNode (.pint 0), pos)
  | fuel + 1, pos => do
    let t ← current_token tokens pos
    if t.type = .OPERATOR ∧ (t.value.getStr = "-" ∨ t.value.getStr = "+") then do
      let (operand, pos1) ← parse_unary tokens recur fuel (pos + 1)
      .ok (.UnaryOpNode t.value.getStr operand, pos1)
    else parse_primary tokens recur fuel pos

/-- `_parse_power`: right-associative via self-recursion on the right
operand. -/
def parse_power (tokens : List Token) (recur : Nat → PResult) :
    Nat → Nat → PResult
  | 0, pos => .ok (.NumberNode (.pint 0), pos)
  | fuel + 1, pos => do
    let (left, pos1) ← parse_unary tokens recur fuel pos
    let t ← current_token tokens pos1
    if t.type = .OPERATOR ∧ t.value.getStr = "^" then do
      let (right, pos2) ← parse_power tokens recur fuel (pos1 + 1)
      .ok (.BinaryOpNode "^" left right, pos2)
    else .ok (left, pos1)

/-- The left-associative binary-operator loop shared by the comparison,
concatenation, additive and multiplicative levels: while the current token is
an `OPERATOR` whose value is in `ops`, consume it, parse the next-tighter
level (`next`), and fold a left-deep `BinaryOpNode`. -/
def bin_op_loop (tokens : List Token) (next : Nat → PResult) (ops : List String) :
    Nat → ASTNode → Nat → PResult
  | 0, left, pos => .ok (left, pos)
  | fuel + 1, left, pos => do
    let t ← current_token tokens pos
    if t.type = .OPERATOR ∧ t.value.getStr ∈ ops then do
      let (right, pos1) ← next (pos + 1)
      bin_op_loop tokens next ops fuel (.BinaryOpNode t.value.getStr left right) pos1
    else .ok (left, pos)

/-- `_parse_multiplication`. -/
def parse_multiplication (tokens : List Token) (recur : Nat → PResult)
    (fuel : Nat) (pos : Nat) : PResult := do
  let (left, pos1) ← parse_power tokens recur fuel pos
  bin_op_loop tokens (parse_power tokens recur fuel) ["*", "/"] fuel left pos1

/-- `_parse_addition`. -/
def parse_addition (tokens : List Token) (recur : Nat → PResult)
    (fuel : Nat) (pos : Nat) : PResult := do
  let (left, pos1) ← parse_multiplication tokens recur fuel pos
  bin_op_loop tokens (parse_multiplication tokens recur fuel) ["+", "-"] fuel left pos1

/-- `_parse_concat`. -/
def parse_concat (tokens : List Token) (recur : Nat → PResult)
    (fuel : Nat) (pos : Nat) : PResult := do
  let (left, pos1) ← parse_addition tokens recur fuel pos
  bin_op_loop tokens (parse_addition tokens recur fuel) ["&"] fuel left pos1

/-- `_parse_comparison`. -/
def parse_comparison (tokens : List Token) (recur : Nat → PResult)
    (fuel : Nat) (pos : Nat) : PResult := do
  let (left, pos1) ← parse_concat tokens recur fuel pos
  bin_op_loop tokens (parse_concat tokens recur fuel) ["=", "<>", "<", ">", "<=", ">="] fuel left pos1

/-- `_parse_expression`, tying the recursive knot on fuel.  Every pass through
the knot consumes a token before re-entering it, so `parser_fuel` below always
suffices; the fuel-exhaustion branch is unreachable from `parse`. -/
def parse_expression (tokens : List Token) : Nat → Nat → PResult
  | 0, pos => .ok (.NumberNode (.pint 0), pos)
  | fuel + 1, pos => parse_comparison tokens (parse_expression tokens fuel) fuel pos

def parser_fuel (tokens : List Token) : Nat := 8 * tokens.length + 64

/-- `ExcelParser(tokens).parse()`. -/
def parse (tokens : List Token) : Except String ASTNode :=
  (parse_expression tokens (parser_fuel tokens) 0).map Prod.fst

end ExcelParser

/-! ### Converter -/

namespace ExcelToSQLConverter

/-- `str(n)` for a Python non-negative `int`, digit characters only. -/
def digitCh (n : Nat) : Char := Char.ofNat (48 + n % 10)

def natDigitsAux : Nat → Nat → List Char
  | 0, _ => []
  | fuel + 1, n =>
    if n < 10 then [digitCh n]
    else natDigitsAux fuel (n / 10) ++ [digitCh (n % 10)]

def natRepr (n : Nat) : List Char := natDigitsAux (n + 1) n

/-- Left-pad a digit string with `'0'` to length `k`. -/
def padZeros (k : Nat) (ds : List Char) : List Char :=
  List.replicate (k - ds.length) '0' ++ ds

def stripTrailingZeros (ds : List Char) : List Char :=
  (ds.reverse.dropWhile (fun c => c = '0')).reverse

/-- `str(x)` for a Python `float` holding an exact short decimal: sign,
integer part, `.`, fraction digits without trailing zeros (`"0"` if none). -/
def pyFloatRepr (f : PyFloat) : String :=
  let sign := if f.num < 0 then "-" else ""
  let n := f.num.natAbs
  let p := 10 ^ f.exp
  let ip := n / p
  let r := n % p
  let frac := stripTrailingZeros (padZeros f.exp (natRepr r))
  sign ++ String.mk (natRepr ip) ++ "." ++
    (if frac.isEmpty then "0" else String.mk frac)

/-- `str(node.value)` for the dynamically typed `NumberNode` payload. -/
def pyNumRepr : PyNum → String
  | .pfloat f => pyFloatRepr f
  | .pint n => (if n < 0 then "-" else "") ++ String.mk (natRepr n.natAbs)

/-- `value.replace("'", "''")`. -/
def escapeSQ : List Char → List Char
  | [] => []
  | c :: rest =>
    if c = '\'' then '\'' :: '\'' :: escapeSQ rest
    else c :: escapeSQ rest

/-- `_convert_cell_ref`.  Note the faithful Python truthiness: the sheet
qualifier applies only when `node.sheet` is present, non-empty, and different
from the current sheet (`if node.sheet and node.sheet != self.current_sheet`).
-/
def convert_cell_ref (cm sm : List (String × String)) (cur : String)
    (cell : String) (sheet : Option String) : String :=
  let col_letter := String.mk (cell.data.filter (fun c => ¬(c = '$' ∨ c.isDigit)))
  let sql_col := dictGet cm col_letter (strLower col_letter)
  match sheet with
  | some s =>
    if s ≠ "" ∧ s ≠ cur then dictGet sm s (strLower s) ++ "." ++ sql_col
    else sql_col
  | none => sql_col

/-- `x.strip(set)`: remove the given characters from both ends. -/
def stripChars (set : List Char) (s : List Char) : List Char :=
  ((s.dropWhile (fun c => c ∈ set)).reverse.dropWhile (fun c => c ∈ set)).reverse

/-- One attempt of `re.search(r'\[\[#This Row\],\[([^\]]+)\]\]', ...)` at the
current position (deterministic: `[^\]]+` stops at the first `]`). -/
def extract_this_row (s : List Char) : Option (List Char) :=
  let pre := ("[[#This Row],[").data
  if pre.isPrefixOf s then
    let t := s.drop pre.length
    let g := t.takeWhile (fun c => c ≠ ']')
    if g.isEmpty then none
    else if headIs ']' (t.drop g.length) && headIs ']' (t.drop g.length).tail then some g
    else none
  else none

/-- `re.search`: leftmost occurrence. -/
def find_this_row : List Char → Option (List Char)
  | [] => none
  | c :: rest =>
    match extract_this_row (c :: rest) with
    | some g => some g
    | none => find_this_row rest

/-- `re.search(r'^\[([^\]]+)\]$', ...)`: the whole string is one bracketed
group whose body is non-empty and `]`-free. -/
def simple_col (s : List Char) : Option (List Char) :=
  if headIs '[' s then
    let rest := s.tail
    let g := rest.takeWhile (fun c => c ≠ ']')
    if g.isEmpty then none
    else if rest.drop g.length = [']'] then some g
    else none
  else none

/-- One match attempt of `#\w+\s+Row` at the current position (deterministic:
`\w` and `\s` are disjoint and `R` is neither, so greedy runs are forced). -/
def row_marker_len (s : List Char) : Option Nat :=
  if headIs '#' s then
    let rest := s.tail
    let w := rest.takeWhile isWordChar
    if w.isEmpty then none else
    let r1 := rest.drop w.length
    let sp := r1.takeWhile Char.isWhitespace
    if sp.isEmpty then none else
    let r2 := r1.drop sp.length
    if ("Row").data.isPrefixOf r2 then some (1 + w.length + sp.length + 3) else none
  else none

/-- `re.sub(r'#\w+\s+Row', '', ...)`: delete all non-overlapping occurrences,
left to right.  Each step consumes at least one character, so `length + 1`
fuel suffices. -/
def remove_row_markers : Nat → List Char → List Char
  | 0, s => s
  | _ + 1, [] => []
  | fuel + 1, c :: rest =>
    match row_marker_len (c :: rest) with
    | some n => remove_row_markers fuel ((c :: rest).drop n)
    | none => c :: remove_row_markers fuel rest

/-- `re.sub(r'[^\w]', '_', x).strip('_').lower()` — the normalization shared
by all three branches of `_convert_table_ref`. -/
def normalize_col (s : List Char) : String :=
  String.mk ((stripChars ['_'] (s.map (fun c => if isWordChar c then c else '_'))).map Char.toLower)

/-- `_convert_table_ref`. -/
def convert_table_ref (table column : String) : String :=
  match find_this_row column.data with
  | some g => normalize_col g
  | none =>
    match simple_col column.data with
    | some g => normalize_col g
    | none =>
      let c1 := stripChars ['[', ']'] column.data
      let c2 := stripChars [',', '[', ']', ' '] (remove_row_markers (c1.length + 1) c1)
      let sql := normalize_col c2
      if sql = "" then strLower table else sql

/-- The `op_map` dict of `_convert_binary_op`, with `.get(op, op)`. -/
def op_map (op : String) : String :=
  if op = "+" then "+" else if op = "-" then "-"
  else if op = "*" then "*" else if op = "/" then "/"
  else if op = "^" then "POWER" else if op = "&" then "||"
  else if op = "=" then "=" else if op = "<>" then "!="
  else if op = "<" then "<" else if op = ">" then ">"
  else if op = "<=" then "<=" else if op = ">=" then ">=" else op

/-- The dispatch of `_convert_function`, applied to the uppercased name and
the already-converted argument strings. -/
def convert_function (name : String) (args : List String) : String :=
  let fn := strUpper name
  let joined := String.intercalate ", " args
  if fn = "SUM" ∨ fn = "AVG" ∨ fn = "COUNT" ∨ fn = "MIN" ∨ fn = "MAX" ∨
     fn = "ROUND" ∨ fn = "ABS" ∨ fn = "SQRT" then
    fn ++ "(" ++ joined ++ ")"
  else if fn = "IF" ∧ 2 ≤ args.length then
    "CASE WHEN " ++ args.getD 0 "" ++ " THEN " ++ args.getD 1 "" ++ " ELSE " ++
      (if 2 < args.length then args.getD 2 "" else "NULL") ++ " END"
  else if fn = "IFERROR" ∧ 2 ≤ args.length then
    "COALESCE(" ++ args.getD 0 "" ++ ", " ++ args.getD 1 "" ++ ")"
  else if fn = "AND" then "(" ++ String.intercalate " AND " args ++ ")"
  else if fn = "OR" then "(" ++ String.intercalate " OR " args ++ ")"
  else if fn = "NOT" then
    match args with
    | a :: _ => "NOT (" ++ a ++ ")"
    | [] => "NOT (TRUE)"
  else if fn = "INDEX" ∨ fn = "MATCH" ∨ fn = "VLOOKUP" ∨ fn = "HLOOKUP" ∨
          fn = "XLOOKUP" then
    "/* TODO: " ++ fn ++ "(" ++ joined ++ ") - Convert to JOIN */"
  else if fn = "COUNTIFS" ∨ fn = "SUMIFS" ∨ fn = "AVERAGEIFS" ∨ fn = "COUNTIF" ∨
          fn = "SUMIF" then
    "/* TODO: " ++ fn ++ "(" ++ joined ++ ") - Convert to WHERE clause */"
  else if fn = "LEN" then
    match args with
    | a :: _ => "LENGTH(" ++ a ++ ")"
    | [] => "LENGTH(NULL)"
  else if fn = "CONCAT" ∨ fn = "CONCATENATE" then "CONCAT(" ++ joined ++ ")"
  else if fn = "TRIM" ∨ fn = "UPPER" ∨ fn = "LOWER" then
    match args with
    | a :: _ => fn ++ "(" ++ a ++ ")"
    | [] => fn ++ "(NULL)"
  else "/* " ++ fn ++ "(" ++ joined ++ ") */"

mutual

/-- `_convert_node`. -/
def convert_node (cm sm : List (String × String)) (cur : String) : ASTNode → String
  | .NumberNode v => pyNumRepr v
  | .StringNode s => "'" ++ String.mk (escapeSQ s.data) ++ "'"
  | .CellRefNode cell sheet => convert_cell_ref cm sm cur cell sheet
  | .RangeRefNode r _ => "/* RANGE: " ++ r ++ " */"
  | .TableRefNode t c _ => convert_table_ref t c
  | .BinaryOpNode op l r =>
    let left := convert_node cm sm cur l
    let right := convert_node cm sm cur r
    let sql_op := op_map op
    if sql_op = "POWER" then "POWER(" ++ left ++ ", " ++ right ++ ")"
    else "(" ++ left ++ " " ++ sql_op ++ " " ++ right ++ ")"
  | .UnaryOpNode op x =>
    let operand := convert_node cm sm cur x
    if op = "-" then "(-" ++ operand ++ ")" else operand
  | .FunctionNode name args => convert_function name (convert_args cm sm cur args)

/-- `[self._convert_node(arg) for arg in node.args]`. -/
def convert_args (cm sm : List (String × String)) (cur : String) :
    List ASTNode → List String
  | [] => []
  | a :: rest => convert_node cm sm cur a :: convert_args cm sm cur rest

end

/-- `ExcelToSQLConverter(column_mappings, sheet_mappings).convert(ast, cur)`.
-/
def convert (cm sm : List (String × String)) (ast : ASTNode) (cur : String) :
    String :=
  convert_node cm sm cur ast

end ExcelToSQLConverter

/-! ### Top-level driver -/

/-- The `try` body of `convert_excel_formula_to_sql`:
tokenize → parse → convert. -/
def formulaPipeline (formula : String) (cm sm : List (String × String))
    (current_sheet : String) : Except String String := do
  let tokens := ExcelTokenizer.tokenize formula
  let ast ← ExcelParser.parse tokens
  .ok (ExcelToSQLConverter.convert cm sm ast current_sheet)

/-- `convert_excel_formula_to_sql`: the catch-all turns any pipeline error
into an inert SQL comment embedding the formula and the message. -/
def convert_excel_formula_to_sql (formula : String)
    (cm sm : List (String × String)) (current_sheet : String) : String :=
  match formulaPipeline formula cm sm current_sheet with
  | .ok sql => sql
  | .error e => "/* ERROR converting formula: " ++ formula ++ " - " ++ e ++ " */"

/-! ### Statement vocabulary

Definitions used only to state theorems: substring tests, the input classes
claims quantify over, and abbreviations of subexpressions of the converter. -/

/-- `pat` occurs as a contiguous substring of `s`. -/
def containsSub (pat : List Char) : List Char → Bool
  | [] => pat.isPrefixOf ([] : List Char)
  | c :: rest => pat.isPrefixOf (c :: rest) || containsSub pat rest

/-- No occurrence of the two-character sequence `/*` (comment opener). -/
def noSS : List Char → Bool
  | [] => true
  | c :: rest => !(c = '/' && headIs '*' rest) && noSS rest

/-- The parenthesis sequence of `s` is balanced (counter never goes negative
and ends at zero). -/
def parenBalanced : List Char → Int → Bool
  | [], k => k = 0
  | '(' :: r, k => parenBalanced r (k + 1)
  | ')' :: r, k => decide (0 < k) && parenBalanced r (k - 1)
  | _ :: r, k => parenBalanced r k

/-- A numeric literal lexeme: `\d+\.?\d*` or `.\d+`. -/
def is_num_lexeme (l : List Char) : Bool :=
  match l with
  | [] => false
  | c :: rest =>
    if c = '.' then !rest.isEmpty && rest.all Char.isDigit
    else
      c.isDigit &&
        (let ds := l.takeWhile Char.isDigit
         match l.drop ds.length with
         | [] => true
         | d :: rest2 => d = '.' && rest2.all Char.isDigit)

/-- An A1-style cell-reference lexeme: `\$?[A-Z]+\$?\d+`, matched in full. -/
def is_cell_lexeme (l : List Char) : Bool :=
  match ExcelTokenizer.cell_pattern l with
  | some n => n = l.length
  | none => false

def is_op_lexeme (l : List Char) : Bool :=
  l = ['+'] || l = ['-'] || l = ['*'] || l = ['/'] || l = ['^'] || l = ['&']

/-- A lexeme of the C3 input class: a number, a cell reference, one of the six
arithmetic/concatenation operators, or a parenthesis. -/
def is_basic_lexeme (l : List Char) : Bool :=
  is_num_lexeme l || is_cell_lexeme l || is_op_lexeme l || l = ['('] || l = [')']

/-- Concatenate lexemes into a formula string. -/
def renderLexemes (ls : List (List Char)) : String := String.mk ls.flatten

/-- The Excel-source encoding of a string literal body: every double quote is
doubled. -/
def escapeDQ : List Char → List Char
  | [] => []
  | c :: rest =>
    if c = '"' then '"' :: '"' :: escapeDQ rest
    else c :: escapeDQ rest

/-- The column-resolution subexpression of `_convert_cell_ref`: strip `$` and
digits, look up `column_mappings`, fall back to the lowercased letters. -/
def cell_column (cm : List (String × String)) (cell : String) : String :=
  let col_letter := String.mk (cell.data.filter (fun c => ¬(c = '$' ∨ c.isDigit)))
  dictGet cm col_letter (strLower col_letter)

/-- The character alphabet of the C3 input class: digits, `.`, uppercase
letters, `$`, the six operators, and parentheses. -/
def basicChar (c : Char) : Bool :=
  c.isDigit || c = '.' || isUpperAZ c || c = '$' || c = '+' || c = '-' ||
  c = '*' || c = '/' || c = '^' || c = '&' || c = '(' || c = ')'

/-- Characters drawn from the C3 alphabet, with the structural property that
every uppercase letter is immediately followed by a letter, a digit or `$`
(true of every concatenation of basic lexemes, since letters occur only
inside cell references, where each letter is so followed). -/
def goodChars : List Char → Bool
  | [] => true
  | c :: rest =>
    basicChar c &&
    (!(isUpperAZ c) || headSat (fun d => isUpperAZ d || d.isDigit || d = '$') rest) &&
    goodChars rest

/-- The token shapes the tokenizer can produce from a C3-class formula:
numbers, cell references over `$`/uppercase/digits, the six operators,
parentheses, and end of stream. -/
def SafeTV (ty : TokenType) (v : TokenValue) : Prop :=
  (ty = .NUMBER ∧ ∃ f, v = .vNum f) ∨
  (ty = .CELL_REF ∧ ∃ s, v = .vStr s ∧
    s.data.all (fun c => c = '$' || isUpperAZ c || c.isDigit) = true) ∨
  (ty = .OPERATOR ∧ ∃ s, v = .vStr s ∧
    (s = "+" ∨ s = "-" ∨ s = "*" ∨ s = "/" ∨ s = "^" ∨ s = "&")) ∨
  ty = .LPAREN ∨ ty = .RPAREN ∨ ty = .EOF

/-- The AST shapes the parser can produce from `SafeTV` tokens. -/
inductive SafeAST : ASTNode → Prop where
  | num (v : PyNum) : SafeAST (.NumberNode v)
  | cell (cell : String)
      (h : cell.data.all (fun c => c = '$' || isUpperAZ c || c.isDigit) = true) :
      SafeAST (.CellRefNode cell none)
  | bin (op : String) (l r : ASTNode)
      (hop : op = "+" ∨ op = "-" ∨ op = "*" ∨ op = "/" ∨ op = "^" ∨ op = "&")
      (hl : SafeAST l) (hr : SafeAST r) : SafeAST (.BinaryOpNode op l r)
  | una (op : String) (x : ASTNode) (hop : op = "-" ∨ op = "+")
      (hx : SafeAST x) : SafeAST (.UnaryOpNode op x)

/-! ### Theorems -/

/-- Length of a list-comprehension conversion equals the argument count. -/
theorem convert_args_length (cm sm : List (String × String)) (cur : String)
    (l : List ASTNode) :
    (ExcelToSQLConverter.convert_args cm sm cur l).length = l.length := by
  induction l with
  | nil => rfl
  | cons a rest ih => simp [ExcelToSQLConverter.convert_args, ih]

/-- Claim C2: the parser honors Excel precedence with right-associative power:
with empty mappings, `A1+B1*C1` translates to `(a + (b * c))`,
`(A1+B1)*C1` to `((a + b) * c)`, and `2^3^2` to
`POWER(2.0, POWER(3.0, 2.0))` — i.e. `2^3^2` parses as `2^(3^2)` and `^` is
emitted as a `POWER(left, right)` call, not infix. -/
theorem claim_C2_precedence_and_power_assoc :
    (∀ cs, convert_excel_formula_to_sql "A1+B1*C1" [] [] cs = "(a + (b * c))") ∧
    (∀ cs, convert_excel_formula_to_sql "(A1+B1)*C1" [] [] cs = "((a + b) * c)") ∧
    (∀ cs, convert_excel_formula_to_sql "2^3^2" [] [] cs
        = "POWER(2.0, POWER(3.0, 2.0))") :=
  ⟨fun _ => rfl, fun _ => rfl, fun _ => rfl⟩

/-- Claim C8: every `Function` node whose uppercased name is in the lookup
group `INDEX/MATCH/VLOOKUP/HLOOKUP/XLOOKUP` converts to an inert comment
`/* TODO: <NAME>(<args>) - Convert to JOIN */`, and every node whose
uppercased name is in the conditional-aggregate group
`COUNTIFS/SUMIFS/AVERAGEIFS/COUNTIF/SUMIF` converts to
`/* TODO: <NAME>(<args>) - Convert to WHERE clause */` — never a bare SQL
function call. -/
theorem claim_C8_lookup_and_conditional_are_todo_comments
    (cm sm : List (String × String)) (cur name : String) (args : List ASTNode) :
    (strUpper name = "INDEX" ∨ strUpper name = "MATCH" ∨
     strUpper name = "VLOOKUP" ∨ strUpper name = "HLOOKUP" ∨
     strUpper name = "XLOOKUP" →
      ExcelToSQLConverter.convert_node cm sm cur (.FunctionNode name args) =
        "/* TODO: " ++ strUpper name ++ "(" ++
          String.intercalate ", " (ExcelToSQLConverter.convert_args cm sm cur args) ++
          ") - Convert to JOIN */") ∧
    (strUpper name = "COUNTIFS" ∨ strUpper name = "SUMIFS" ∨
     strUpper name = "AVERAGEIFS" ∨ strUpper name = "COUNTIF" ∨
     strUpper name = "SUMIF" →
      ExcelToSQLConverter.convert_node cm sm cur (.FunctionNode name args) =
        "/* TODO: " ++ strUpper name ++ "(" ++
          String.intercalate ", " (ExcelToSQLConverter.convert_args cm sm cur args) ++
          ") - Convert to WHERE clause */") := by
  constructor
  · intro h
    rw [ExcelToSQLConverter.convert_node, ExcelToSQLConverter.convert_function.eq_def]
    rcases h with h | h | h | h | h <;> rw [h] <;> simp
  · intro h
    rw [ExcelToSQLConverter.convert_node, ExcelToSQLConverter.convert_function.eq_def]
    rcases h with h | h | h | h | h <;> rw [h] <;> simp

/-- Witness for C8 at concrete inputs. -/
theorem claim_C8_witness :
    ExcelToSQLConverter.convert_node [] [] "Sheet1" (.FunctionNode "INDEX" [])
      = "/* TODO: INDEX() - Convert to JOIN */" ∧
    ExcelToSQLConverter.convert_node [] [] "Sheet1"
        (.FunctionNode "SUMIFS" [.NumberNode (.pfloat ⟨1, 0⟩)])
      = "/* TODO: SUMIFS(1.0) - Convert to WHERE clause */" := by
  constructor
  · exact ((claim_C8_lookup_and_conditional_are_todo_comments [] [] "Sheet1"
      "INDEX" []).1 (Or.inl rfl)).trans (by rfl)
  · exact ((claim_C8_lookup_and_conditional_are_todo_comments [] [] "Sheet1"
      "SUMIFS" [.NumberNode (.pfloat ⟨1, 0⟩)]).2 (Or.inr (Or.inl rfl))).trans (by rfl)

/-- Claim C10: an `IF` node with fewer than two arguments does not produce a
CASE expression — it falls through every dispatch branch to the generic inert
comment `/* IF(<converted args>) */`; likewise `IFERROR` with fewer than two
arguments falls through to `/* IFERROR(<converted args>) */`; the
`CASE WHEN ... THEN ... ELSE ... END` form appears exactly when `IF` has at
least two arguments. -/
theorem claim_C10_if_fallthrough_below_two_args
    (cm sm : List (String × String)) (cur name : String) (args : List ASTNode) :
    (strUpper name = "IF" → args.length < 2 →
      ExcelToSQLConverter.convert_node cm sm cur (.FunctionNode name args) =
        "/* IF(" ++
          String.intercalate ", " (ExcelToSQLConverter.convert_args cm sm cur args) ++
          ") */") ∧
    (strUpper name = "IFERROR" → args.length < 2 →
      ExcelToSQLConverter.convert_node cm sm cur (.FunctionNode name args) =
        "/* IFERROR(" ++
          String.intercalate ", " (ExcelToSQLConverter.convert_args cm sm cur args) ++
          ") */") ∧
    (strUpper name = "IF" → 2 ≤ args.length →
      ExcelToSQLConverter.convert_node cm sm cur (.FunctionNode name args) =
        "CASE WHEN " ++ (ExcelToSQLConverter.convert_args cm sm cur args).getD 0 "" ++
        " THEN " ++ (ExcelToSQLConverter.convert_args cm sm cur args).getD 1 "" ++
        " ELSE " ++
          (if 2 < args.length
           then (ExcelToSQLConverter.convert_args cm sm cur args).getD 2 ""
           else "NULL") ++ " END") := by
  refine ⟨fun h hlen => ?_, fun h hlen => ?_, fun h hlen => ?_⟩ <;>
    rw [ExcelToSQLConverter.convert_node, ExcelToSQLConverter.convert_function.eq_def] <;>
    rw [h] <;> simp [convert_args_length] <;> omega

/-- Witness for C10 at concrete inputs. -/
theorem claim_C10_witness :
    ExcelToSQLConverter.convert_node [] [] "Sheet1"
        (.FunctionNode "IF" [.CellRefNode "A1" none]) = "/* IF(a) */" ∧
    ExcelToSQLConverter.convert_node [] [] "Sheet1"
        (.FunctionNode "IFERROR" []) = "/* IFERROR() */" ∧
    ExcelToSQLConverter.convert_node [] [] "Sheet1"
        (.FunctionNode "IF" [.CellRefNode "A1" none, .NumberNode (.pfloat ⟨1, 0⟩)])
      = "CASE WHEN a THEN 1.0 ELSE NULL END" := by
  refine ⟨?_, ?_, ?_⟩
  · exact ((claim_C10_if_fallthrough_below_two_args [] [] "Sheet1" "IF"
      [.CellRefNode "A1" none]).1 rfl (by decide)).trans (by rfl)
  · exact ((claim_C10_if_fallthrough_below_two_args [] [] "Sheet1" "IFERROR"
      []).2.1 rfl (by decide)).trans (by rfl)
  · exact ((claim_C10_if_fallthrough_below_two_args [] [] "Sheet1" "IF"
      [.CellRefNode "A1" none, .NumberNode (.pfloat ⟨1, 0⟩)]).2.2 rfl
      (by decide)).trans (by rfl)

/-! Equation lemmas for `match_string_aux` (its literal patterns are opaque to
`simp`). -/

theorem match_string_aux_qq (t : List Char) :
    ExcelTokenizer.match_string_aux ('"' :: '"' :: t) =
      ('"' :: (ExcelTokenizer.match_string_aux t).1,
       (ExcelTokenizer.match_string_aux t).2 + 2) := by rfl

theorem match_string_aux_other (c : Char) (t : List Char) (hc : c ≠ '"') :
    ExcelTokenizer.match_string_aux (c :: t) =
      (c :: (ExcelTokenizer.match_string_aux t).1,
       (ExcelTokenizer.match_string_aux t).2 + 1) := by
  rw [ExcelTokenizer.match_string_aux.eq_def]
  simp [hc]

/-- Lexing the escaped body `escapeDQ v` followed by the closing quote and any
remainder not starting with a quote recovers exactly `v`. -/
theorem match_string_aux_escape : ∀ v rest : List Char, headIs '"' rest = false →
    ExcelTokenizer.match_string_aux (escapeDQ v ++ '"' :: rest) =
      (v, (escapeDQ v).length + 1) := by
  intro v
  induction v with
  | nil =>
    intro rest h
    cases rest with
    | nil => rfl
    | cons c2 r2 =>
      simp only [headIs, decide_eq_false_iff_not] at h
      rw [ExcelTokenizer.match_string_aux.eq_def]
      simp [escapeDQ, h]
  | cons c v' ih =>
    intro rest h
    by_cases hc : c = '"'
    · subst hc
      have he : escapeDQ ('"' :: v') = '"' :: '"' :: escapeDQ v' := rfl
      rw [he, List.cons_append, List.cons_append, match_string_aux_qq, ih rest h]
      simp
    · simp only [escapeDQ, if_neg hc, List.cons_append]
      rw [match_string_aux_other c _ hc, ih rest h]
      simp

/-- An unterminated literal: the rest of the input becomes the value. -/
theorem match_string_aux_unterminated : ∀ v : List Char, '"' ∉ v →
    ExcelTokenizer.match_string_aux v = (v, v.length) := by
  intro v
  induction v with
  | nil => intro; rfl
  | cons c v' ih =>
    intro h
    have hc : c ≠ '"' := fun hh => h (hh ▸ List.mem_cons_self c v')
    rw [match_string_aux_other c _ hc, ih (fun hm => h (List.mem_cons_of_mem c hm))]
    simp

/-- `_convert_node` on a `String` node doubles embedded single quotes. -/
theorem escapeSQ_spec : ∀ v : List Char,
    ExcelToSQLConverter.escapeSQ v =
      v.flatMap (fun c => if c = '\'' then ['\'', '\''] else [c]) := by
  intro v
  induction v with
  | nil => rfl
  | cons c v' ih =>
    by_cases hc : c = '\''
    · subst hc; simp [ExcelToSQLConverter.escapeSQ, ih]
    · simp [ExcelToSQLConverter.escapeSQ, hc, ih]

/-- Claim C7: string literals round-trip with correct escaping — lexing a
double-quoted literal turns each internal doubled quote `""` into one literal
quote in the token value, an unterminated string at end of input still yields
a `STRING` token without error, and the converter emits a `String` node as a
single-quoted SQL literal with each embedded single quote doubled (so the
Excel literal `"it's"` translates to `'it''s'`). -/
theorem claim_C7_string_literal_roundtrip :
    (∀ v rest : List Char, headIs '"' rest = false →
       ExcelTokenizer.match_string ('"' :: (escapeDQ v ++ '"' :: rest)) =
         some (.vStr (String.mk v), (escapeDQ v).length + 2)) ∧
    (∀ v : List Char, '"' ∉ v →
       ExcelTokenizer.match_string ('"' :: v) =
         some (.vStr (String.mk v), v.length + 1)) ∧
    (∀ (cm sm : List (String × String)) (cur : String) (s : String),
       ExcelToSQLConverter.convert_node cm sm cur (.StringNode s) =
         "'" ++ String.mk (s.data.flatMap
           (fun c => if c = '\'' then ['\'', '\''] else [c])) ++ "'") ∧
    convert_excel_formula_to_sql "\"it's\"" [] [] "Sheet1" = "'it''s'" := by
  refine ⟨?_, ?_, ?_, rfl⟩
  · intro v rest h
    have hm : ExcelTokenizer.match_string ('"' :: (escapeDQ v ++ '"' :: rest)) =
        some (.vStr (String.mk
          (ExcelTokenizer.match_string_aux (escapeDQ v ++ '"' :: rest)).1),
          (ExcelTokenizer.match_string_aux (escapeDQ v ++ '"' :: rest)).2 + 1) := by rfl
    rw [hm, match_string_aux_escape v rest h]
  · intro v h
    have hm : ExcelTokenizer.match_string ('"' :: v) =
        some (.vStr (String.mk (ExcelTokenizer.match_string_aux v).1),
          (ExcelTokenizer.match_string_aux v).2 + 1) := by rfl
    rw [hm, match_string_aux_unterminated v h]
  · intro cm sm cur s
    have hm : ExcelToSQLConverter.convert_node cm sm cur (.StringNode s) =
        "'" ++ String.mk (ExcelToSQLConverter.escapeSQ s.data) ++ "'" := by rfl
    rw [hm, escapeSQ_spec]

/-- Witness for C7 at concrete inputs. -/
theorem claim_C7_witness :
    ExcelTokenizer.match_string ('"' :: 'a' :: '"' :: '"' :: 'b' :: '"' :: []) =
      some (.vStr "a\"b", 6) ∧
    ExcelTokenizer.match_string ('"' :: 'a' :: 'b' :: []) =
      some (.vStr "ab", 3) ∧
    ExcelToSQLConverter.convert_node [] [] "Sheet1" (.StringNode "it's") =
      "'it''s'" := by
  refine ⟨?_, ?_, ?_⟩
  · exact claim_C7_string_literal_roundtrip.1 ['a', '"', 'b'] [] rfl
  · exact claim_C7_string_literal_roundtrip.2.1 ['a', 'b'] (by decide)
  · exact (claim_C7_string_literal_roundtrip.2.2.1 [] [] "Sheet1" "it's").trans (by rfl)

/-! Helper lemmas about `takeWhile`, used to characterize the regex matchers. -/

theorem take_length_takeWhile (p : Char → Bool) (l : List Char) :
    l.take (l.takeWhile p).length = l.takeWhile p := by
  induction l with
  | nil => rfl
  | cons c rest ih =>
    by_cases h : p c
    · simp [List.takeWhile_cons, h, ih]
    · simp [List.takeWhile_cons, h]

theorem all_takeWhile (p : Char → Bool) (l : List Char) :
    (l.takeWhile p).all p = true := by
  induction l with
  | nil => rfl
  | cons c rest ih =>
    by_cases h : p c
    · simp [List.takeWhile_cons, h, ih]
    · simp [List.takeWhile_cons, h]

/-- Decompose a successful `cell_pattern` match into the regex pieces. -/
theorem cell_pattern_shape (s : List Char) (n : Nat)
    (h : ExcelTokenizer.cell_pattern s = some n) :
    ∃ d1 ls d2 ds : List Char,
      s.take n = ((d1 ++ ls) ++ d2) ++ ds ∧
      (d1 = [] ∨ d1 = ['$']) ∧ ls ≠ [] ∧ ls.all isUpperAZ ∧
      (d2 = [] ∨ d2 = ['$']) ∧ ds ≠ [] ∧ ds.all Char.isDigit ∧
      n = ((d1.length + ls.length) + d2.length) + ds.length := by
  have key : ∀ (u : List Char) (d1 : List Char), (d1 = [] ∨ d1 = ['$']) →
      ∀ m, (let ls := u.takeWhile isUpperAZ
            if ls.isEmpty then none else
            let s2 := u.drop ls.length
            let p2 : Nat × List Char := if headIs '$' s2 then (1, s2.tail) else (0, s2)
            let ds := p2.2.takeWhile Char.isDigit
            if ds.isEmpty then none
            else some (d1.length + ls.length + p2.1 + ds.length)) = some m →
      ∃ ls d2 ds : List Char,
        u.take (m - d1.length) = (ls ++ d2) ++ ds ∧
        ls ≠ [] ∧ ls.all isUpperAZ ∧ (d2 = [] ∨ d2 = ['$']) ∧
        ds ≠ [] ∧ ds.all Char.isDigit ∧
        m = ((d1.length + ls.length) + d2.length) + ds.length := by
    intro u d1 hd1 m hm
    simp only at hm
    by_cases hls : (u.takeWhile isUpperAZ).isEmpty
    · simp [hls] at hm
    · simp only [hls, if_false, Bool.false_eq_true] at hm
      by_cases hd2 : headIs '$' (u.drop (u.takeWhile isUpperAZ).length)
      · -- second optional dollar present
        rcases hs2 : u.drop (u.takeWhile isUpperAZ).length with _ | ⟨c2, t2⟩
        · rw [hs2] at hd2; simp [headIs] at hd2
        · have hc2 : c2 = '$' := by
            rw [hs2] at hd2; simpa [headIs] using hd2
          subst hc2
          rw [hs2] at hm
          simp only [show headIs '$' ('$' :: t2) = true from rfl, if_true, List.tail_cons] at hm
          by_cases hds : (t2.takeWhile Char.isDigit).isEmpty
          · simp [hds] at hm
          · simp only [hds, if_false, Bool.false_eq_true, Option.some.injEq] at hm
            refine ⟨u.takeWhile isUpperAZ, ['$'], t2.takeWhile Char.isDigit, ?_, ?_, ?_, ?_, ?_, ?_, ?_⟩
            · have hmm : m - d1.length =
                  (u.takeWhile isUpperAZ).length + (1 + (t2.takeWhile Char.isDigit).length) := by
                omega
              rw [hmm, List.take_add, take_length_takeWhile, hs2,
                Nat.add_comm 1 (t2.takeWhile Char.isDigit).length,
                List.take_succ_cons, take_length_takeWhile]
              simp
            · simpa [List.isEmpty_iff] using hls
            · exact all_takeWhile _ _
            · exact Or.inr rfl
            · simpa [List.isEmpty_iff] using hds
            · exact all_takeWhile _ _
            · simp; omega
      · simp only [hd2, if_false, Bool.false_eq_true] at hm
        by_cases hds : ((u.drop (u.takeWhile isUpperAZ).length).takeWhile Char.isDigit).isEmpty
        · simp [hds] at hm
        · simp only [hds, if_false, Bool.false_eq_true, Option.some.injEq] at hm
          refine ⟨u.takeWhile isUpperAZ, [],
              (u.drop (u.takeWhile isUpperAZ).length).takeWhile Char.isDigit,
              ?_, ?_, ?_, ?_, ?_, ?_, ?_⟩
          · have hmm : m - d1.length =
                (u.takeWhile isUpperAZ).length +
                  ((u.drop (u.takeWhile isUpperAZ).length).takeWhile Char.isDigit).length := by
              omega
            rw [hmm, List.take_add, take_length_takeWhile, take_length_takeWhile]
            simp
          · simpa [List.isEmpty_iff] using hls
          · exact all_takeWhile _ _
          · exact Or.inl rfl
          · simpa [List.isEmpty_iff] using hds
          · exact all_takeWhile _ _
          · simp; omega
  unfold ExcelTokenizer.cell_pattern at h
  by_cases hd1 : headIs '$' s
  · rcases s with _ | ⟨c, t⟩
    · simp [headIs] at hd1
    · have hc : c = '$' := by simpa [headIs] using hd1
      subst hc
      simp only [show headIs '$' ('$' :: t) = true from rfl, if_true, List.tail_cons] at h
      obtain ⟨ls, d2, ds, h1, h2, h3, h4, h5, h6, h7⟩ := key t ['$'] (Or.inr rfl) n h
      refine ⟨['$'], ls, d2, ds, ?_, Or.inr rfl, h2, h3, h4, h5, h6, ?_⟩
      · have hn : n = 1 + (n - 1) := by simp at h7; omega
        rw [hn]
        rw [Nat.add_comm 1 (n - 1), List.take_succ_cons]
        have : n - List.length ['$'] = n - 1 := by simp
        rw [this] at h1
        rw [h1]
        simp
      · simpa using h7
  · simp only [hd1, if_false, Bool.false_eq_true] at h
    obtain ⟨ls, d2, ds, h1, h2, h3, h4, h5, h6, h7⟩ := key s [] (Or.inl rfl) n h
    refine ⟨[], ls, d2, ds, ?_, Or.inl rfl, h2, h3, h4, h5, h6, ?_⟩
    · simpa using h1
    · simpa using h7

/-- Claim C5 counterexample: the claim predicts that `a1` lexes to a
`CELL_REF` token with value `A1`; in fact the cell regex is case-sensitive,
`a` is skipped as an unrecognized character, and `1` lexes as a number. -/
theorem claim_C5_counterexample :
    ExcelTokenizer.tokenize "a1" =
      [⟨.NUMBER, .vNum ⟨1, 0⟩, 1⟩, ⟨.EOF, .vNone, 2⟩] ∧
    (∀ t ∈ ExcelTokenizer.tokenize "a1",
       ¬(t.type = .CELL_REF ∧ t.value = .vStr "A1")) :=
  ⟨rfl, by decide⟩

/-- Claim C5 as amended: the tokenizer matches cell references
case-sensitively against `\$?[A-Z]+\$?\d+` (uppercase letters only) and the
`CELL_REF` token value is the matched text verbatim — no case normalization
is performed; a lowercase reference such as `a1` is not recognized. -/
theorem claim_C5_amended_case_sensitive_verbatim :
    (∀ (s : List Char) (v : String) (n : Nat),
       ExcelTokenizer.match_cell_reference s = some (.vStr v, n) →
         v = String.mk (s.take n) ∧
         ∃ d1 ls d2 ds : List Char,
           s.take n = ((d1 ++ ls) ++ d2) ++ ds ∧ (d1 = [] ∨ d1 = ['$']) ∧
           ls ≠ [] ∧ ls.all isUpperAZ ∧ (d2 = [] ∨ d2 = ['$']) ∧
           ds ≠ [] ∧ ds.all Char.isDigit ∧
           n = ((d1.length + ls.length) + d2.length) + ds.length) ∧
    ExcelTokenizer.tokenize "A1" =
      [⟨.CELL_REF, .vStr "A1", 0⟩, ⟨.EOF, .vNone, 2⟩] ∧
    ExcelTokenizer.match_cell_reference ('a' :: '1' :: []) = none := by
  refine ⟨?_, rfl, rfl⟩
  intro s v n h
  rcases hcp : ExcelTokenizer.cell_pattern s with _ | k
  · simp [ExcelTokenizer.match_cell_reference, hcp] at h
  · simp only [ExcelTokenizer.match_cell_reference, hcp, Option.map_some',
      Option.some.injEq, Prod.mk.injEq, TokenValue.vStr.injEq] at h
    obtain ⟨hv, hn⟩ := h
    subst hn
    exact ⟨hv.symm, cell_pattern_shape s _ hcp⟩

/-- Witness for the amended C5 at a concrete input. -/
theorem claim_C5_amended_witness :
    ("$AB$12" : String) = String.mk ((['$', 'A', 'B', '$', '1', '2']).take 6) :=
  (claim_C5_amended_case_sensitive_verbatim.1 ['$', 'A', 'B', '$', '1', '2']
    "$AB$12" 6 rfl).1

/-- Claim C4 counterexample: a `CellRef` node carrying the empty sheet name
(reachable from the formula `''!A1`) has a sheet different from
`current_sheet = "Sheet1"`, yet the output is the bare column name, not the
qualified `<table>.<column>` the claim requires (here `.a`), because the code
tests Python truthiness (`if node.sheet and ...`) and `""` is falsy. -/
theorem claim_C4_counterexample :
    ExcelToSQLConverter.convert_cell_ref [] [] "Sheet1" "A1" (some "") = "a" ∧
    ("" : String) ≠ "Sheet1" ∧
    ExcelToSQLConverter.convert_cell_ref [] [] "Sheet1" "A1" (some "") ≠
      dictGet [] "" (strLower "") ++ "." ++ cell_column [] "A1" ∧
    convert_excel_formula_to_sql "''!A1" [] [] "Sheet1" = "a" :=
  ⟨rfl, by decide, by decide, rfl⟩

/-- Claim C4 as amended: column letters (with `$` anchors and digits
stripped) resolve through `column_mappings` with lowercase fallback; a sheet
qualifier `<table>.<column>` is emitted exactly when the node carries a
*non-empty* sheet name different from `current_sheet`; same-sheet or absent
(or empty) sheet names give the bare column.  The claim's concrete examples
hold as stated. -/
theorem claim_C4_amended_cell_ref_resolution :
    (∀ (cm sm : List (String × String)) (cur cell s : String), s ≠ "" → s ≠ cur →
       ExcelToSQLConverter.convert_cell_ref cm sm cur cell (some s) =
         dictGet sm s (strLower s) ++ "." ++ cell_column cm cell) ∧
    (∀ (cm sm : List (String × String)) (cur cell : String),
       ExcelToSQLConverter.convert_cell_ref cm sm cur cell none =
         cell_column cm cell) ∧
    (∀ (cm sm : List (String × String)) (cur cell : String),
       ExcelToSQLConverter.convert_cell_ref cm sm cur cell (some cur) =
         cell_column cm cell) ∧
    (∀ (cm : List (String × String)) (cell : String),
       cm.lookup (String.mk (cell.data.filter (fun c => ¬(c = '$' ∨ c.isDigit)))) =
           none →
         cell_column cm cell =
           strLower (String.mk (cell.data.filter (fun c => ¬(c = '$' ∨ c.isDigit))))) ∧
    (∀ (cm : List (String × String)) (cell v : String),
       cm.lookup (String.mk (cell.data.filter (fun c => ¬(c = '$' ∨ c.isDigit)))) =
           some v →
         cell_column cm cell = v) ∧
    convert_excel_formula_to_sql "Sheet2!A2+Sheet2!B2" [] [("Sheet2", "other_table")]
      "Sheet1" = "(other_table.a + other_table.b)" ∧
    convert_excel_formula_to_sql "Sheet2!A2+Sheet2!B2" [] [("Sheet2", "other_table")]
      "Sheet2" = "(a + b)" := by
  refine ⟨?_, fun cm sm cur cell => rfl, ?_, ?_, ?_, rfl, rfl⟩
  · intro cm sm cur cell s h1 h2
    simp only [ExcelToSQLConverter.convert_cell_ref]
    rw [if_pos ⟨h1, h2⟩]
    rfl
  · intro cm sm cur cell
    simp only [ExcelToSQLConverter.convert_cell_ref]
    rw [if_neg (fun hcon => hcon.2 rfl)]
    rfl
  · intro cm cell h
    simp only [cell_column, dictGet]
    rw [h]
    rfl
  · intro cm cell v h
    simp only [cell_column, dictGet]
    rw [h]
    rfl

/-- Witness for the amended C4 at concrete inputs. -/
theorem claim_C4_amended_witness :
    ExcelToSQLConverter.convert_cell_ref [] [("Sheet2", "other_table")] "Sheet1"
      "A2" (some "Sheet2") = "other_table.a" ∧
    cell_column [] "A2" = "a" ∧
    cell_column [("A", "amount")] "$A$2" = "amount" := by
  refine ⟨?_, ?_, ?_⟩
  · exact (claim_C4_amended_cell_ref_resolution.1 [] [("Sheet2", "other_table")]
      "Sheet1" "A2" "Sheet2" (by decide) (by decide)).trans (by rfl)
  · exact (claim_C4_amended_cell_ref_resolution.2.2.2.1 [] "A2" (by rfl)).trans
      (by rfl)
  · exact (claim_C4_amended_cell_ref_resolution.2.2.2.2.1 [("A", "amount")] "$A$2"
      "amount" (by rfl)).trans (by rfl)

/-! Parser lemmas: on a non-empty token list no parse function can raise
(the only raise point in the whole pipeline is `tokens[-1]` on an empty
list), and every parse function moves the cursor monotonically forward. -/

namespace ExcelParser

theorem current_token_ok (tokens : List Token) (hne : tokens ≠ []) (pos : Nat) :
    ∃ t, current_token tokens pos = .ok t ∧ t ∈ tokens := by
  unfold current_token
  by_cases h : pos < tokens.length
  · exact ⟨tokens.get ⟨pos, h⟩, by simp [h], List.get_mem tokens pos h⟩
  · rcases hl : tokens.getLast? with _ | t
    · exact absurd (List.getLast?_eq_none_iff.mp hl) hne
    · exact ⟨t, by simp [h, hl], List.mem_of_mem_getLast? hl⟩

theorem parse_args_loop_ok (tokens : List Token) (recur : Nat → PResult)
    (hne : tokens ≠ []) (hrec : ∀ pos, ∃ r, recur pos = .ok r) :
    ∀ fuel args pos, ∃ r, parse_args_loop tokens recur fuel args pos = .ok r := by
  intro fuel
  induction fuel with
  | zero => exact fun args pos => ⟨(args, pos), rfl⟩
  | succ fuel ih =>
    intro args pos
    obtain ⟨t, ht, -⟩ := current_token_ok tokens hne pos
    rw [parse_args_loop]
    simp only [ht, bind, Except.bind]
    by_cases hc : t.type = TokenType.RPAREN ∨ t.type = TokenType.EOF
    · rw [if_pos hc]; exact ⟨(args, pos), rfl⟩
    · rw [if_neg hc]
      obtain ⟨⟨e, pos1⟩, hr⟩ := hrec pos
      obtain ⟨t2, ht2, -⟩ := current_token_ok tokens hne pos1
      simp only [hr, ht2]
      by_cases hc2 : t2.type = TokenType.COMMA
      · rw [if_pos hc2]; exact ih _ _
      · rw [if_neg hc2]
        by_cases hc3 : t2.type = TokenType.RPAREN
        · rw [if_pos hc3]; exact ⟨(args ++ [e], pos1), rfl⟩
        · rw [if_neg hc3]; exact ih _ _

theorem parse_function_ok (tokens : List Token) (recur : Nat → PResult)
    (hne : tokens ≠ []) (hrec : ∀ pos, ∃ r, recur pos = .ok r)
    (fuel pos : Nat) : ∃ r, parse_function tokens recur fuel pos = .ok r := by
  obtain ⟨t, ht, -⟩ := current_token_ok tokens hne pos
  obtain ⟨t2, ht2, -⟩ := current_token_ok tokens hne (pos + 1)
  rw [parse_function]
  simp only [ht, ht2, bind, Except.bind]
  by_cases hc : t2.type ≠ TokenType.LPAREN
  · rw [if_pos hc]; exact ⟨_, rfl⟩
  · rw [if_neg hc]
    obtain ⟨⟨args, pos2⟩, ha⟩ := parse_args_loop_ok tokens recur hne hrec fuel [] (pos + 1 + 1)
    obtain ⟨t3, ht3, -⟩ := current_token_ok tokens hne pos2
    simp only [ha, ht3]
    by_cases hc3 : t3.type = TokenType.RPAREN
    · rw [if_pos hc3]; exact ⟨_, rfl⟩
    · rw [if_neg hc3]; exact ⟨_, rfl⟩

theorem parse_primary_ok (tokens : List Token) (recur : Nat → PResult)
    (hne : tokens ≠ []) (hrec : ∀ pos, ∃ r, recur pos = .ok r)
    (fuel pos : Nat) : ∃ r, parse_primary tokens recur fuel pos = .ok r := by
  obtain ⟨t, ht, -⟩ := current_token_ok tokens hne pos
  rw [parse_primary]
  simp only [ht, bind, Except.bind]
  by_cases h1 : t.type = TokenType.NUMBER
  · rw [if_pos h1]; exact ⟨_, rfl⟩
  rw [if_neg h1]
  by_cases h2 : t.type = TokenType.STRING
  · rw [if_pos h2]; exact ⟨_, rfl⟩
  rw [if_neg h2]
  have main : ∀ (sh : Option String) (pos1 : Nat),
      ∃ r, (do
        let token2 ← current_token tokens pos1
        if token2.type = TokenType.CELL_REF then
          Except.ok (ASTNode.CellRefNode token2.value.getStr sh, pos1 + 1)
        else if token2.type = TokenType.RANGE_REF then
          Except.ok (ASTNode.RangeRefNode token2.value.getStr sh, pos1 + 1)
        else if token2.type = TokenType.TABLE_REF then
          Except.ok (ASTNode.TableRefNode token2.value.getTable token2.value.getColumn
            token2.value.getFull, pos1 + 1)
        else if token2.type = TokenType.FUNCTION then parse_function tokens recur fuel pos1
        else if token2.type = TokenType.LPAREN then do
          let p ← recur (pos1 + 1)
          let t3 ← current_token tokens p.2
          if t3.type = TokenType.RPAREN then Except.ok (p.1, p.2 + 1)
          else Except.ok (p.1, p.2)
        else Except.ok (ASTNode.NumberNode (PyNum.pint 0), pos1 + 1) : PResult) = .ok r := by
    intro sh pos1
    obtain ⟨t2, ht2, -⟩ := current_token_ok tokens hne pos1
    simp only [ht2, bind, Except.bind]
    by_cases c1 : t2.type = TokenType.CELL_REF
    · rw [if_pos c1]; exact ⟨_, rfl⟩
    rw [if_neg c1]
    by_cases c2 : t2.type = TokenType.RANGE_REF
    · rw [if_pos c2]; exact ⟨_, rfl⟩
    rw [if_neg c2]
    by_cases c3 : t2.type = TokenType.TABLE_REF
    · rw [if_pos c3]; exact ⟨_, rfl⟩
    rw [if_neg c3]
    by_cases c4 : t2.type = TokenType.FUNCTION
    · rw [if_pos c4]; exact parse_function_ok tokens recur hne hrec fuel pos1
    rw [if_neg c4]
    by_cases c5 : t2.type = TokenType.LPAREN
    · rw [if_pos c5]
      obtain ⟨⟨e, pos2⟩, hr⟩ := hrec (pos1 + 1)
      obtain ⟨t3, ht3, -⟩ := current_token_ok tokens hne pos2
      simp only [hr, ht3, bind, Except.bind]
      by_cases c6 : t3.type = TokenType.RPAREN
      · rw [if_pos c6]; exact ⟨_, rfl⟩
      · rw [if_neg c6]; exact ⟨_, rfl⟩
    · rw [if_neg c5]; exact ⟨_, rfl⟩
  by_cases h3 : t.type = TokenType.SHEET_REF
  · simp only [if_pos h3]
    exact main (some t.value.getStr) (pos + 1)
  · simp only [if_neg h3]
    exact main none pos

theorem parse_unary_ok (tokens : List Token) (recur : Nat → PResult)
    (hne : tokens ≠ []) (hrec : ∀ pos, ∃ r, recur pos = .ok r) :
    ∀ fuel pos, ∃ r, parse_unary tokens recur fuel pos = .ok r := by
  intro fuel
  induction fuel with
  | zero => exact fun pos => ⟨_, rfl⟩
  | succ fuel ih =>
    intro pos
    obtain ⟨t, ht, -⟩ := current_token_ok tokens hne pos
    rw [parse_unary]
    simp only [ht, bind, Except.bind]
    by_cases hc : t.type = TokenType.OPERATOR ∧ (t.value.getStr = "-" ∨ t.value.getStr = "+")
    · rw [if_pos hc]
      obtain ⟨⟨operand, pos1⟩, ho⟩ := ih (pos + 1)
      simp only [ho]
      exact ⟨_, rfl⟩
    · rw [if_neg hc]
      exact parse_primary_ok tokens recur hne hrec fuel pos

theorem parse_power_ok (tokens : List Token) (recur : Nat → PResult)
    (hne : tokens ≠ []) (hrec : ∀ pos, ∃ r, recur pos = .ok r) :
    ∀ fuel pos, ∃ r, parse_power tokens recur fuel pos = .ok r := by
  intro fuel
  induction fuel with
  | zero => exact fun pos => ⟨_, rfl⟩
  | succ fuel ih =>
    intro pos
    obtain ⟨⟨left, pos1⟩, hl⟩ := parse_unary_ok tokens recur hne hrec fuel pos
    obtain ⟨t, ht, -⟩ := current_token_ok tokens hne pos1
    rw [parse_power]
    simp only [hl, ht, bind, Except.bind]
    by_cases hc : t.type = TokenType.OPERATOR ∧ t.value.getStr = "^"
    · rw [if_pos hc]
      obtain ⟨⟨right, pos2⟩, hr⟩ := ih (pos1 + 1)
      simp only [hr]
      exact ⟨_, rfl⟩
    · rw [if_neg hc]; exact ⟨_, rfl⟩

theorem bin_op_loop_ok (tokens : List Token) (next : Nat → PResult)
    (ops : List String) (hne : tokens ≠ [])
    (hnext : ∀ pos, ∃ r, next pos = .ok r) :
    ∀ fuel left pos, ∃ r, bin_op_loop tokens next ops fuel left pos = .ok r := by
  intro fuel
  induction fuel with
  | zero => exact fun left pos => ⟨_, rfl⟩
  | succ fuel ih =>
    intro left pos
    obtain ⟨t, ht, -⟩ := current_token_ok tokens hne pos
    rw [bin_op_loop]
    simp only [ht, bind, Except.bind]
    by_cases hc : t.type = TokenType.OPERATOR ∧ t.value.getStr ∈ ops
    · rw [if_pos hc]
      obtain ⟨⟨right, pos1⟩, hr⟩ := hnext (pos + 1)
      simp only [hr]
      exact ih _ _
    · rw [if_neg hc]; exact ⟨_, rfl⟩

theorem parse_multiplication_ok (tokens : List Token) (recur : Nat → PResult)
    (hne : tokens ≠ []) (hrec : ∀ pos, ∃ r, recur pos = .ok r)
    (fuel pos : Nat) : ∃ r, parse_multiplication tokens recur fuel pos = .ok r := by
  obtain ⟨⟨left, pos1⟩, hl⟩ := parse_power_ok tokens recur hne hrec fuel pos
  rw [parse_multiplication]
  simp only [hl, bind, Except.bind]
  exact bin_op_loop_ok tokens _ _ hne (parse_power_ok tokens recur hne hrec fuel) fuel _ _

theorem parse_addition_ok (tokens : List Token) (recur : Nat → PResult)
    (hne : tokens ≠ []) (hrec : ∀ pos, ∃ r, recur pos = .ok r)
    (fuel pos : Nat) : ∃ r, parse_addition tokens recur fuel pos = .ok r := by
  obtain ⟨⟨left, pos1⟩, hl⟩ := parse_multiplication_ok tokens recur hne hrec fuel pos
  rw [parse_addition]
  simp only [hl, bind, Except.bind]
  exact bin_op_loop_ok tokens _ _ hne
    (fun p => parse_multiplication_ok tokens recur hne hrec fuel p) fuel _ _

theorem parse_concat_ok (tokens : List Token) (recur : Nat → PResult)
    (hne : tokens ≠ []) (hrec : ∀ pos, ∃ r, recur pos = .ok r)
    (fuel pos : Nat) : ∃ r, parse_concat tokens recur fuel pos = .ok r := by
  obtain ⟨⟨left, pos1⟩, hl⟩ := parse_addition_ok tokens recur hne hrec fuel pos
  rw [parse_concat]
  simp only [hl, bind, Except.bind]
  exact bin_op_loop_ok tokens _ _ hne
    (fun p => parse_addition_ok tokens recur hne hrec fuel p) fuel _ _

theorem parse_comparison_ok (tokens : List Token) (recur : Nat → PResult)
    (hne : tokens ≠ []) (hrec : ∀ pos, ∃ r, recur pos = .ok r)
    (fuel pos : Nat) : ∃ r, parse_comparison tokens recur fuel pos = .ok r := by
  obtain ⟨⟨left, pos1⟩, hl⟩ := parse_concat_ok tokens recur hne hrec fuel pos
  rw [parse_comparison]
  simp only [hl, bind, Except.bind]
  exact bin_op_loop_ok tokens _ _ hne
    (fun p => parse_concat_ok tokens recur hne hrec fuel p) fuel _ _

theorem parse_expression_ok (tokens : List Token) (hne : tokens ≠ []) :
    ∀ fuel pos, ∃ r, parse_expression tokens fuel pos = .ok r := by
  intro fuel
  induction fuel with
  | zero => exact fun pos => ⟨_, rfl⟩
  | succ fuel ih =>
    intro pos
    rw [parse_expression]
    exact parse_comparison_ok tokens _ hne ih fuel pos

/-- `ExcelParser.parse` raises only on an empty token list. -/
theorem parse_ok (tokens : List Token) (hne : tokens ≠ []) :
    ∃ a, parse tokens = .ok a := by
  obtain ⟨⟨a, pos'⟩, h⟩ := parse_expression_ok tokens hne (parser_fuel tokens) 0
  exact ⟨a, by rw [parse, h]; rfl⟩

end ExcelParser

/-- The token list produced by the tokenizer is never empty (it always ends
with the EOF token). -/
theorem tokenizeAux_ne_nil (fuel : Nat) :
    ∀ s pos, ExcelTokenizer.tokenizeAux fuel s pos ≠ [] := by
  induction fuel with
  | zero => intro s pos; rw [ExcelTokenizer.tokenizeAux]; simp
  | succ fuel ih =>
    intro s pos
    cases s with
    | nil => rw [ExcelTokenizer.tokenizeAux]; simp
    | cons c rest =>
      rw [ExcelTokenizer.tokenizeAux]
      by_cases hw : c.isWhitespace
      · rw [if_pos hw]; exact ih _ _
      · rw [if_neg hw]
        rcases hm : ExcelTokenizer.try_matchers (c :: rest) with _ | ⟨t, v, n⟩
        · exact ih _ _
        · simp

theorem tokenize_ne_nil (f : String) : ExcelTokenizer.tokenize f ≠ [] :=
  tokenizeAux_ne_nil _ _ _

/-- The embedded pipeline never raises: tokenization is total, the token list
is non-empty, parsing is total on non-empty token lists, and conversion is
total. -/
theorem formulaPipeline_ok (f : String) (cm sm : List (String × String))
    (cs : String) : ∃ s, formulaPipeline f cm sm cs = .ok s := by
  obtain ⟨a, ha⟩ := ExcelParser.parse_ok (ExcelTokenizer.tokenize f) (tokenize_ne_nil f)
  refine ⟨ExcelToSQLConverter.convert cm sm a cs, ?_⟩
  rw [formulaPipeline]
  simp only [ha, bind, Except.bind]



namespace ExcelParser

theorem parse_args_loop_mono (tokens : List Token) (recur : Nat → PResult)
    (hrec : ∀ q b q', recur q = .ok (b, q') → q ≤ q') :
    ∀ fuel args pos as pos',
      parse_args_loop tokens recur fuel args pos = .ok (as, pos') → pos ≤ pos' := by
  intro fuel
  induction fuel with
  | zero =>
    intro args pos as pos' h
    rw [parse_args_loop] at h
    simp only [Except.ok.injEq, Prod.mk.injEq] at h
    omega
  | succ fuel ih =>
    intro args pos as pos' h
    rw [parse_args_loop] at h
    rcases hct : current_token tokens pos with e | t
    · simp only [hct] at h; simp [bind, Except.bind] at h
    · simp only [hct] at h
      simp only [bind, Except.bind] at h
      by_cases hc : t.type = TokenType.RPAREN ∨ t.type = TokenType.EOF
      · rw [if_pos hc] at h
        simp only [Except.ok.injEq, Prod.mk.injEq] at h
        omega
      · rw [if_neg hc] at h
        rcases hr : recur pos with e | ⟨e1, pos1⟩
        · simp only [hr] at h; simp at h
        · simp only [hr] at h
          rcases hct2 : current_token tokens pos1 with e | t2
          · simp only [hct2] at h; simp at h
          · simp only [hct2] at h
            have h01 : pos ≤ pos1 := hrec pos e1 pos1 hr
            by_cases hc2 : t2.type = TokenType.COMMA
            · rw [if_pos hc2] at h
              have := ih _ _ _ _ h
              omega
            · rw [if_neg hc2] at h
              by_cases hc3 : t2.type = TokenType.RPAREN
              · rw [if_pos hc3] at h
                simp only [Except.ok.injEq, Prod.mk.injEq] at h
                omega
              · rw [if_neg hc3] at h
                have := ih _ _ _ _ h
                omega

theorem parse_function_mono (tokens : List Token) (recur : Nat → PResult)
    (hrec : ∀ q b q', recur q = .ok (b, q') → q ≤ q')
    (fuel pos : Nat) (a : ASTNode) (pos' : Nat)
    (h : parse_function tokens recur fuel pos = .ok (a, pos')) : pos ≤ pos' := by
  rw [parse_function] at h
  rcases hct : current_token tokens pos with e | t
  · simp only [hct] at h; simp [bind, Except.bind] at h
  · simp only [hct] at h
    simp only [bind, Except.bind] at h
    rcases hct2 : current_token tokens (pos + 1) with e | t2
    · simp only [hct2] at h; simp at h
    · simp only [hct2] at h
      by_cases hc : t2.type ≠ TokenType.LPAREN
      · rw [if_pos hc] at h
        simp only [Except.ok.injEq, Prod.mk.injEq] at h
        omega
      · rw [if_neg hc] at h
        rcases ha : parse_args_loop tokens recur fuel [] (pos + 1 + 1) with e | ⟨args, pos2⟩
        · simp only [ha] at h; simp at h
        · simp only [ha] at h
          have h02 : pos + 1 + 1 ≤ pos2 :=
            parse_args_loop_mono tokens recur hrec fuel [] (pos + 1 + 1) args pos2 ha
          rcases hct3 : current_token tokens pos2 with e | t3
          · simp only [hct3] at h; simp at h
          · simp only [hct3] at h
            by_cases hc3 : t3.type = TokenType.RPAREN
            · rw [if_pos hc3] at h
              simp only [Except.ok.injEq, Prod.mk.injEq] at h
              omega
            · rw [if_neg hc3] at h
              simp only [Except.ok.injEq, Prod.mk.injEq] at h
              omega

theorem parse_primary_mono (tokens : List Token) (recur : Nat → PResult)
    (hrec : ∀ q b q', recur q = .ok (b, q') → q ≤ q')
    (fuel pos : Nat) (a : ASTNode) (pos' : Nat)
    (h : parse_primary tokens recur fuel pos = .ok (a, pos')) : pos ≤ pos' := by
  rw [parse_primary] at h
  rcases hct : current_token tokens pos with e | t
  · simp only [hct] at h; simp [bind, Except.bind] at h
  · simp only [hct] at h
    simp only [bind, Except.bind] at h
    by_cases h1 : t.type = TokenType.NUMBER
    · rw [if_pos h1] at h
      simp only [Except.ok.injEq, Prod.mk.injEq] at h
      omega
    rw [if_neg h1] at h
    by_cases h2 : t.type = TokenType.STRING
    · rw [if_pos h2] at h
      simp only [Except.ok.injEq, Prod.mk.injEq] at h
      omega
    rw [if_neg h2] at h
    have main : ∀ (sh : Option String) (pos1 : Nat), pos ≤ pos1 →
        (do
          let token2 ← current_token tokens pos1
          if token2.type = TokenType.CELL_REF then
            Except.ok (ASTNode.CellRefNode token2.value.getStr sh, pos1 + 1)
          else if token2.type = TokenType.RANGE_REF then
            Except.ok (ASTNode.RangeRefNode token2.value.getStr sh, pos1 + 1)
          else if token2.type = TokenType.TABLE_REF then
            Except.ok (ASTNode.TableRefNode token2.value.getTable token2.value.getColumn
              token2.value.getFull, pos1 + 1)
          else if token2.type = TokenType.FUNCTION then parse_function tokens recur fuel pos1
          else if token2.type = TokenType.LPAREN then do
            let p ← recur (pos1 + 1)
            let t3 ← current_token tokens p.2
            if t3.type = TokenType.RPAREN then Except.ok (p.1, p.2 + 1)
            else Except.ok (p.1, p.2)
          else Except.ok (ASTNode.NumberNode (PyNum.pint 0), pos1 + 1) : PResult) =
            .ok (a, pos') →
        pos ≤ pos' := by
      intro sh pos1 h01 hh
      rcases hct2 : current_token tokens pos1 with e | t2
      · simp only [hct2] at hh; simp [bind, Except.bind] at hh
      · simp only [hct2] at hh
        simp only [bind, Except.bind] at hh
        by_cases c1 : t2.type = TokenType.CELL_REF
        · rw [if_pos c1] at hh
          simp only [Except.ok.injEq, Prod.mk.injEq] at hh
          omega
        rw [if_neg c1] at hh
        by_cases c2 : t2.type = TokenType.RANGE_REF
        · rw [if_pos c2] at hh
          simp only [Except.ok.injEq, Prod.mk.injEq] at hh
          omega
        rw [if_neg c2] at hh
        by_cases c3 : t2.type = TokenType.TABLE_REF
        · rw [if_pos c3] at hh
          simp only [Except.ok.injEq, Prod.mk.injEq] at hh
          omega
        rw [if_neg c3] at hh
        by_cases c4 : t2.type = TokenType.FUNCTION
        · rw [if_pos c4] at hh
          have := parse_function_mono tokens recur hrec fuel pos1 a pos' hh
          omega
        rw [if_neg c4] at hh
        by_cases c5 : t2.type = TokenType.LPAREN
        · rw [if_pos c5] at hh
          rcases hr : recur (pos1 + 1) with e | ⟨e1, pos2⟩
          · simp only [hr] at hh; simp at hh
          · simp only [hr] at hh
            have h12 : pos1 + 1 ≤ pos2 := hrec (pos1 + 1) e1 pos2 hr
            rcases hct3 : current_token tokens pos2 with e | t3
            · simp only [hct3] at hh; simp at hh
            · simp only [hct3] at hh
              by_cases c6 : t3.type = TokenType.RPAREN
              · rw [if_pos c6] at hh
                simp only [Except.ok.injEq, Prod.mk.injEq] at hh
                omega
              · rw [if_neg c6] at hh
                simp only [Except.ok.injEq, Prod.mk.injEq] at hh
                omega
        · rw [if_neg c5] at hh
          simp only [Except.ok.injEq, Prod.mk.injEq] at hh
          omega
    by_cases h3 : t.type = TokenType.SHEET_REF
    · simp only [if_pos h3] at h
      exact main (some t.value.getStr) (pos + 1) (by omega) h
    · simp only [if_neg h3] at h
      exact main none pos (by omega) h

theorem parse_unary_mono (tokens : List Token) (recur : Nat → PResult)
    (hrec : ∀ q b q', recur q = .ok (b, q') → q ≤ q') :
    ∀ fuel pos a pos',
      parse_unary tokens recur fuel pos = .ok (a, pos') → pos ≤ pos' := by
  intro fuel
  induction fuel with
  | zero =>
    intro pos a pos' h
    rw [parse_unary] at h
    simp only [Except.ok.injEq, Prod.mk.injEq] at h
    omega
  | succ fuel ih =>
    intro pos a pos' h
    rw [parse_unary] at h
    rcases hct : current_token tokens pos with e | t
    · simp only [hct] at h; simp [bind, Except.bind] at h
    · simp only [hct] at h
      simp only [bind, Except.bind] at h
      by_cases hc : t.type = TokenType.OPERATOR ∧
          (t.value.getStr = "-" ∨ t.value.getStr = "+")
      · rw [if_pos hc] at h
        rcases ho : parse_unary tokens recur fuel (pos + 1) with e | ⟨operand, pos1⟩
        · simp only [ho] at h; simp at h
        · simp only [ho] at h
          have := ih (pos + 1) operand pos1 ho
          simp only [Except.ok.injEq, Prod.mk.injEq] at h
          omega
      · rw [if_neg hc] at h
        exact parse_primary_mono tokens recur hrec fuel pos a pos' h

theorem parse_power_mono (tokens : List Token) (recur : Nat → PResult)
    (hrec : ∀ q b q', recur q = .ok (b, q') → q ≤ q') :
    ∀ fuel pos a pos',
      parse_power tokens recur fuel pos = .ok (a, pos') → pos ≤ pos' := by
  intro fuel
  induction fuel with
  | zero =>
    intro pos a pos' h
    rw [parse_power] at h
    simp only [Except.ok.injEq, Prod.mk.injEq] at h
    omega
  | succ fuel ih =>
    intro pos a pos' h
    rw [parse_power] at h
    rcases hu : parse_unary tokens recur fuel pos with e | ⟨left, pos1⟩
    · simp only [hu] at h; simp [bind, Except.bind] at h
    · simp only [hu] at h
      simp only [bind, Except.bind] at h
      have h01 : pos ≤ pos1 := parse_unary_mono tokens recur hrec fuel pos left pos1 hu
      rcases hct : current_token tokens pos1 with e | t
      · simp only [hct] at h; simp at h
      · simp only [hct] at h
        by_cases hc : t.type = TokenType.OPERATOR ∧ t.value.getStr = "^"
        · rw [if_pos hc] at h
          rcases hp : parse_power tokens recur fuel (pos1 + 1) with e | ⟨right, pos2⟩
          · simp only [hp] at h; simp at h
          · simp only [hp] at h
            have := ih (pos1 + 1) right pos2 hp
            simp only [Except.ok.injEq, Prod.mk.injEq] at h
            omega
        · rw [if_neg hc] at h
          simp only [Except.ok.injEq, Prod.mk.injEq] at h
          omega

theorem bin_op_loop_mono (tokens : List Token) (next : Nat → PResult)
    (ops : List String) (hnext : ∀ q b q', next q = .ok (b, q') → q ≤ q') :
    ∀ fuel left pos a pos',
      bin_op_loop tokens next ops fuel left pos = .ok (a, pos') → pos ≤ pos' := by
  intro fuel
  induction fuel with
  | zero =>
    intro left pos a pos' h
    rw [bin_op_loop] at h
    simp only [Except.ok.injEq, Prod.mk.injEq] at h
    omega
  | succ fuel ih =>
    intro left pos a pos' h
    rw [bin_op_loop] at h
    rcases hct : current_token tokens pos with e | t
    · simp only [hct] at h; simp [bind, Except.bind] at h
    · simp only [hct] at h
      simp only [bind, Except.bind] at h
      by_cases hc : t.type = TokenType.OPERATOR ∧ t.value.getStr ∈ ops
      · rw [if_pos hc] at h
        rcases hr : next (pos + 1) with e | ⟨right, pos1⟩
        · simp only [hr] at h; simp at h
        · simp only [hr] at h
          have h01 : pos + 1 ≤ pos1 := hnext (pos + 1) right pos1 hr
          have := ih _ _ _ _ h
          omega
      · rw [if_neg hc] at h
        simp only [Except.ok.injEq, Prod.mk.injEq] at h
        omega

theorem parse_multiplication_mono (tokens : List Token) (recur : Nat → PResult)
    (hrec : ∀ q b q', recur q = .ok (b, q') → q ≤ q')
    (fuel pos : Nat) (a : ASTNode) (pos' : Nat)
    (h : parse_multiplication tokens recur fuel pos = .ok (a, pos')) : pos ≤ pos' := by
  rw [parse_multiplication] at h
  rcases hp : parse_power tokens recur fuel pos with e | ⟨left, pos1⟩
  · simp only [hp] at h; simp [bind, Except.bind] at h
  · simp only [hp] at h
    simp only [bind, Except.bind] at h
    have h01 : pos ≤ pos1 := parse_power_mono tokens recur hrec fuel pos left pos1 hp
    have := bin_op_loop_mono tokens _ _
      (fun q b q' => parse_power_mono tokens recur hrec fuel q b q') fuel left pos1 a pos' h
    omega

theorem parse_addition_mono (tokens : List Token) (recur : Nat → PResult)
    (hrec : ∀ q b q', recur q = .ok (b, q') → q ≤ q')
    (fuel pos : Nat) (a : ASTNode) (pos' : Nat)
    (h : parse_addition tokens recur fuel pos = .ok (a, pos')) : pos ≤ pos' := by
  rw [parse_addition] at h
  rcases hp : parse_multiplication tokens recur fuel pos with e | ⟨left, pos1⟩
  · simp only [hp] at h; simp [bind, Except.bind] at h
  · simp only [hp] at h
    simp only [bind, Except.bind] at h
    have h01 : pos ≤ pos1 :=
      parse_multiplication_mono tokens recur hrec fuel pos left pos1 hp
    have := bin_op_loop_mono tokens _ _
      (fun q b q' => parse_multiplication_mono tokens recur hrec fuel q b q')
      fuel left pos1 a pos' h
    omega

theorem parse_concat_mono (tokens : List Token) (recur : Nat → PResult)
    (hrec : ∀ q b q', recur q = .ok (b, q') → q ≤ q')
    (fuel pos : Nat) (a : ASTNode) (pos' : Nat)
    (h : parse_concat tokens recur fuel pos = .ok (a, pos')) : pos ≤ pos' := by
  rw [parse_concat] at h
  rcases hp : parse_addition tokens recur fuel pos with e | ⟨left, pos1⟩
  · simp only [hp] at h; simp [bind, Except.bind] at h
  · simp only [hp] at h
    simp only [bind, Except.bind] at h
    have h01 : pos ≤ pos1 := parse_addition_mono tokens recur hrec fuel pos left pos1 hp
    have := bin_op_loop_mono tokens _ _
      (fun q b q' => parse_addition_mono tokens recur hrec fuel q b q')
      fuel left pos1 a pos' h
    omega

theorem parse_comparison_mono (tokens : List Token) (recur : Nat → PResult)
    (hrec : ∀ q b q', recur q = .ok (b, q') → q ≤ q')
    (fuel pos : Nat) (a : ASTNode) (pos' : Nat)
    (h : parse_comparison tokens recur fuel pos = .ok (a, pos')) : pos ≤ pos' := by
  rw [parse_comparison] at h
  rcases hp : parse_concat tokens recur fuel pos with e | ⟨left, pos1⟩
  · simp only [hp] at h; simp [bind, Except.bind] at h
  · simp only [hp] at h
    simp only [bind, Except.bind] at h
    have h01 : pos ≤ pos1 := parse_concat_mono tokens recur hrec fuel pos left pos1 hp
    have := bin_op_loop_mono tokens _ _
      (fun q b q' => parse_concat_mono tokens recur hrec fuel q b q')
      fuel left pos1 a pos' h
    omega

theorem parse_expression_mono (tokens : List Token) :
    ∀ fuel pos a pos',
      parse_expression tokens fuel pos = .ok (a, pos') → pos ≤ pos' := by
  intro fuel
  induction fuel with
  | zero =>
    intro pos a pos' h
    rw [parse_expression] at h
    simp only [Except.ok.injEq, Prod.mk.injEq] at h
    omega
  | succ fuel ih =>
    intro pos a pos' h
    rw [parse_expression] at h
    exact parse_comparison_mono tokens _ (fun q b q' => ih q b q') fuel pos a pos' h

end ExcelParser

/-- Claim C1: the top-level driver never propagates an exception — for every
input it returns a string; in this embedding the pipeline in fact never
errors, and by the driver's catch-all structure, whenever the pipeline raises
with message `e` the returned string is exactly
`/* ERROR converting formula: <formula> - <e> */`. -/
theorem claim_C1_driver_catch_all :
    ∀ (formula : String) (cm sm : List (String × String)) (cs : String),
      (∃ v, formulaPipeline formula cm sm cs = .ok v ∧
        convert_excel_formula_to_sql formula cm sm cs = v) ∧
      (∃ s, convert_excel_formula_to_sql formula cm sm cs = s ∧
        (formulaPipeline formula cm sm cs = .ok s ∨
         ∃ e, formulaPipeline formula cm sm cs = .error e ∧
           s = "/* ERROR converting formula: " ++ formula ++ " - " ++ e ++ " */")) := by
  intro f cm sm cs
  constructor
  · obtain ⟨v, hv⟩ := formulaPipeline_ok f cm sm cs
    refine ⟨v, hv, ?_⟩
    rw [convert_excel_formula_to_sql, hv]
  · rcases h : formulaPipeline f cm sm cs with e | s
    · refine ⟨"/* ERROR converting formula: " ++ f ++ " - " ++ e ++ " */", ?_,
        Or.inr ⟨e, rfl, rfl⟩⟩
      rw [convert_excel_formula_to_sql, h]
    · refine ⟨s, ?_, Or.inl rfl⟩
      rw [convert_excel_formula_to_sql, h]

/-- Claim C6: when `_parse_primary` meets a token that does not begin a valid
primary expression (a stray operator, a comma, an unmatched closing
parenthesis, a percent token, or end of stream), it consumes that token and
returns the `int`-zero `Number` node instead of raising; consequently the
parser never raises on any non-empty token sequence — in particular on the
tokenization of any formula string. -/
theorem claim_C6_primary_fallback_and_no_raise :
    (∀ (tokens : List Token) (recur : Nat → ExcelParser.PResult) (fuel pos : Nat)
       (t : Token),
       ExcelParser.current_token tokens pos = .ok t →
       t.type ≠ .NUMBER → t.type ≠ .STRING → t.type ≠ .SHEET_REF →
       t.type ≠ .CELL_REF → t.type ≠ .RANGE_REF → t.type ≠ .TABLE_REF →
       t.type ≠ .FUNCTION → t.type ≠ .LPAREN →
       ExcelParser.parse_primary tokens recur fuel pos =
         .ok (.NumberNode (.pint 0), pos + 1)) ∧
    (∀ tokens : List Token, tokens ≠ [] → ∃ a, ExcelParser.parse tokens = .ok a) ∧
    (∀ f : String, ∃ a, ExcelParser.parse (ExcelTokenizer.tokenize f) = .ok a) := by
  refine ⟨?_, ExcelParser.parse_ok,
    fun f => ExcelParser.parse_ok _ (tokenize_ne_nil f)⟩
  intro tokens recur fuel pos t ht h1 h2 h3 h4 h5 h6 h7 h8
  rw [ExcelParser.parse_primary]
  simp only [ht, bind, Except.bind]
  rw [if_neg h1, if_neg h2]
  simp only [if_neg h3, ht]
  rw [if_neg h4, if_neg h5, if_neg h6, if_neg h7, if_neg h8]

/-- Witness for C6 at concrete inputs: a stray comma is swallowed into
`NumberNode(0)`, and parsing an EOF-only token list succeeds. -/
theorem claim_C6_witness :
    ExcelParser.parse_primary [⟨.COMMA, .vStr ",", 0⟩, ⟨.EOF, .vNone, 1⟩]
        (fun p => .ok (.NumberNode (.pint 0), p)) 7 0 =
      .ok (.NumberNode (.pint 0), 1) ∧
    (∃ a, ExcelParser.parse [⟨.EOF, .vNone, 0⟩] = .ok a) ∧
    (∃ a, ExcelParser.parse (ExcelTokenizer.tokenize "+ )") = .ok a) := by
  refine ⟨?_, ?_, ?_⟩
  · exact claim_C6_primary_fallback_and_no_raise.1
      [⟨.COMMA, .vStr ",", 0⟩, ⟨.EOF, .vNone, 1⟩]
      (fun p => .ok (.NumberNode (.pint 0), p)) 7 0 ⟨.COMMA, .vStr ",", 0⟩ rfl
      (by decide) (by decide) (by decide) (by decide) (by decide) (by decide)
      (by decide) (by decide)
  · exact claim_C6_primary_fallback_and_no_raise.2.1 [⟨.EOF, .vNone, 0⟩] (by decide)
  · exact claim_C6_primary_fallback_and_no_raise.2.2 "+ )"

/-- Claim C9: the parser's token cursor is monotonically non-decreasing —
every parse function that returns moved the position forward or left it
unchanged, so no consumed token is re-read.  Stated for the expression
entry point, and for the comparison level and the primary level given any
monotone recursive callback. -/
theorem claim_C9_position_monotone :
    (∀ (tokens : List Token) (fuel pos : Nat) (a : ASTNode) (pos' : Nat),
       ExcelParser.parse_expression tokens fuel pos = .ok (a, pos') → pos ≤ pos') ∧
    (∀ (tokens : List Token) (recur : Nat → ExcelParser.PResult),
       (∀ q b q', recur q = .ok (b, q') → q ≤ q') →
       ∀ (fuel pos : Nat) (a : ASTNode) (pos' : Nat),
         ExcelParser.parse_comparison tokens recur fuel pos = .ok (a, pos') →
           pos ≤ pos') ∧
    (∀ (tokens : List Token) (recur : Nat → ExcelParser.PResult),
       (∀ q b q', recur q = .ok (b, q') → q ≤ q') →
       ∀ (fuel pos : Nat) (a : ASTNode) (pos' : Nat),
         ExcelParser.parse_primary tokens recur fuel pos = .ok (a, pos') →
           pos ≤ pos') :=
  ⟨fun tokens fuel pos a pos' => ExcelParser.parse_expression_mono tokens fuel pos a pos',
   fun tokens recur hrec fuel pos a pos' =>
     ExcelParser.parse_comparison_mono tokens recur hrec fuel pos a pos',
   fun tokens recur hrec fuel pos a pos' =>
     ExcelParser.parse_primary_mono tokens recur hrec fuel pos a pos'⟩

/-- Witness for C9 at a concrete input. -/
theorem claim_C9_witness : (0 : Nat) ≤ 1 ∧ (5 : Nat) ≤ 6 := by
  constructor
  · exact claim_C9_position_monotone.1
      [⟨.NUMBER, .vNum ⟨7, 0⟩, 0⟩, ⟨.EOF, .vNone, 1⟩] 20 0
      (.NumberNode (.pfloat ⟨7, 0⟩)) 1 rfl
  · exact claim_C9_position_monotone.2.2
      [⟨.NUMBER, .vNum ⟨7, 0⟩, 0⟩, ⟨.EOF, .vNone, 1⟩]
      (fun p => .ok (.NumberNode (.pint 0), p))
      (fun q b q' h => by simp only [Except.ok.injEq, Prod.mk.injEq] at h; omega)
      9 5 (.NumberNode (.pint 0)) 6 rfl

/-! Character-class facts used by the C3 tokenizer analysis. -/

theorem not_digit_and_upper (c : Char) (h1 : c.isDigit = true)
    (h2 : isUpperAZ c = true) : False := by
  simp [Char.isDigit, isUpperAZ, Char.le_def] at h1 h2
  have n1 : c.val.toNat ≤ 57 := h1.2
  have n2 : 65 ≤ c.val.toNat := h2.1
  omega

theorem not_lower_and_upper (c : Char) (h1 : isLowerAZ c = true)
    (h2 : isUpperAZ c = true) : False := by
  simp [isLowerAZ, isUpperAZ, Char.le_def] at h1 h2
  have n1 : 97 ≤ c.val.toNat := h1.1
  have n2 : c.val.toNat ≤ 90 := h2.2
  omega

theorem not_digit_and_lower (c : Char) (h1 : c.isDigit = true)
    (h2 : isLowerAZ c = true) : False := by
  simp [Char.isDigit, isLowerAZ, Char.le_def] at h1 h2
  have n1 : c.val.toNat ≤ 57 := h1.2
  have n2 : 97 ≤ c.val.toNat := h2.1
  omega

/-- A character of the C3 alphabet is never equal to any character outside
the alphabet (instantiate with a concrete `d` whose `basicChar` is false). -/
theorem basicChar_ne (c : Char) (h : basicChar c = true) (d : Char)
    (hd : basicChar d = false) : c ≠ d := fun hc => by
  subst hc; rw [h] at hd; cases hd

theorem basicChar_not_ws (c : Char) (h : basicChar c = true) :
    c.isWhitespace = false := by
  apply Bool.eq_false_iff.mpr
  intro hw
  simp [Char.isWhitespace] at hw
  rcases hw with ((rfl | rfl) | rfl) | rfl <;> (revert h; decide)

theorem charOfNat_toNat (n : Nat) (h : n < 55296) : (Char.ofNat n).toNat = n := by
  unfold Char.ofNat
  rw [dif_pos]
  · rfl
  · exact Or.inl h

theorem upper_toLower_bounds (c : Char) (h : isUpperAZ c = true) :
    97 ≤ (Char.toLower c).toNat ∧ (Char.toLower c).toNat ≤ 122 := by
  simp [isUpperAZ] at h
  have hdef : c.toLower = Char.ofNat (c.toNat + 32) := by
    rw [show c.toLower =
      if 'A' ≤ c ∧ c ≤ 'Z' then Char.ofNat (c.toNat + 32) else c from rfl, if_pos h]
  have hub : c.toNat ≤ 90 := h.2
  have hlb : 65 ≤ c.toNat := h.1
  rw [hdef, charOfNat_toNat _ (by omega)]
  omega

theorem upper_toLower_ne (c : Char) (h : isUpperAZ c = true) :
    Char.toLower c ≠ '/' ∧ Char.toLower c ≠ '*' := by
  obtain ⟨h1, h2⟩ := upper_toLower_bounds c h
  constructor
  · intro hc
    rw [hc] at h1
    exact absurd h1 (by decide)
  · intro hc
    rw [hc] at h1
    exact absurd h1 (by decide)

theorem digitCh_ne (n : Nat) :
    ExcelToSQLConverter.digitCh n ≠ '/' ∧ ExcelToSQLConverter.digitCh n ≠ '*' := by
  have hv : (ExcelToSQLConverter.digitCh n).toNat = 48 + n % 10 := by
    rw [ExcelToSQLConverter.digitCh, charOfNat_toNat]
    omega
  have hmod : n % 10 < 10 := Nat.mod_lt n (by omega)
  constructor
  · intro hc
    have h47 : (47 : Nat) = 48 + n % 10 := by rw [← hv, hc]; rfl
    omega
  · intro hc
    have h42 : (42 : Nat) = 48 + n % 10 := by rw [← hv, hc]; rfl
    omega

/-! `goodChars` structural lemmas. -/

theorem goodChars_tail (c : Char) (rest : List Char)
    (h : goodChars (c :: rest) = true) : goodChars rest = true := by
  rw [goodChars] at h
  simp only [Bool.and_eq_true] at h
  exact h.2

theorem goodChars_basic (c : Char) (rest : List Char)
    (h : goodChars (c :: rest) = true) : basicChar c = true := by
  rw [goodChars] at h
  simp only [Bool.and_eq_true] at h
  exact h.1.1

theorem goodChars_follow (c : Char) (rest : List Char)
    (h : goodChars (c :: rest) = true) (hu : isUpperAZ c = true) :
    headSat (fun d => isUpperAZ d || d.isDigit || d = '$') rest = true := by
  rw [goodChars] at h
  simp only [Bool.and_eq_true, Bool.or_eq_true, Bool.not_eq_true'] at h
  rcases h.1.2 with h' | h'
  · rw [hu] at h'; cases h'
  · exact h'

theorem goodChars_mem (s : List Char) (h : goodChars s = true) :
    ∀ c ∈ s, basicChar c = true := by
  induction s with
  | nil => intro c hc; cases hc
  | cons d rest ih =>
    intro c hc
    rcases List.mem_cons.mp hc with rfl | hc'
    · exact goodChars_basic _ _ h
    · exact ih (goodChars_tail _ _ h) c hc'

theorem goodChars_drop (s : List Char) (h : goodChars s = true) (n : Nat) :
    goodChars (s.drop n) = true := by
  induction n generalizing s with
  | zero => exact h
  | succ n ih =>
    cases s with
    | nil => exact h
    | cons c rest =>
      rw [List.drop_succ_cons]
      exact ih rest (goodChars_tail _ _ h)

theorem goodChars_append (a b : List Char) (ha : goodChars a = true)
    (hb : goodChars b = true) : goodChars (a ++ b) = true := by
  induction a with
  | nil => exact hb
  | cons c a' ih =>
    have hc := goodChars_basic _ _ ha
    have ha' := goodChars_tail _ _ ha
    rw [List.cons_append, goodChars]
    simp only [Bool.and_eq_true]
    refine ⟨⟨hc, ?_⟩, ih ha'⟩
    by_cases hu : isUpperAZ c
    · have hf := goodChars_follow _ _ ha hu
      cases a' with
      | nil => rw [headSat] at hf; cases hf
      | cons d a'' =>
        rw [List.cons_append]
        simp only [Bool.or_eq_true]
        right
        exact hf
    · simp [hu]

/-! More `takeWhile`/`dropWhile` helpers. -/

theorem drop_length_takeWhile (p : Char → Bool) (l : List Char) :
    l.drop (l.takeWhile p).length = l.dropWhile p := by
  induction l with
  | nil => rfl
  | cons c rest ih =>
    by_cases h : p c
    · simp [List.takeWhile_cons, List.dropWhile_cons, h, ih]
    · simp [List.takeWhile_cons, List.dropWhile_cons, h]

theorem headSat_dropWhile (p : Char → Bool) (l : List Char) :
    headSat p (l.dropWhile p) = false := by
  induction l with
  | nil => rfl
  | cons c rest ih =>
    by_cases h : p c
    · simp [List.dropWhile_cons, h, ih]
    · simp [List.dropWhile_cons, h, headSat]

theorem takeWhile_eq_of (p q : Char → Bool) (l : List Char)
    (hpq : ∀ c, p c = true → q c = true)
    (hstop : headSat q (l.dropWhile p) = false) :
    l.takeWhile q = l.takeWhile p := by
  induction l with
  | nil => rfl
  | cons c rest ih =>
    by_cases hp : p c
    · have hq := hpq c hp
      rw [List.dropWhile_cons, if_pos hp] at hstop
      simp [List.takeWhile_cons, hp, hq, ih hstop]
    · rw [List.dropWhile_cons, if_neg hp] at hstop
      rw [headSat] at hstop
      simp [List.takeWhile_cons, hp, hstop]

theorem takeWhile_isEmpty_iff (p : Char → Bool) (l : List Char) :
    (l.takeWhile p).isEmpty = true ↔ headSat p l = false := by
  cases l with
  | nil => simp [headSat]
  | cons c rest =>
    by_cases h : p c
    · simp [List.takeWhile_cons, h, headSat]
    · simp [List.takeWhile_cons, h, headSat]

/-- Following a maximal run of uppercase letters in a `goodChars` string,
there is always a next character, and it is a letter, a digit or `$` (hence,
being past the maximal run, a digit or `$`). -/
theorem good_dropWhile_upper (s : List Char) (hg : goodChars s = true)
    (hh : headSat isUpperAZ s = true) :
    headSat (fun d => isUpperAZ d || d.isDigit || d = '$')
      (s.dropWhile isUpperAZ) = true := by
  induction s with
  | nil => cases hh
  | cons c rest ih =>
    rw [headSat] at hh
    rw [List.dropWhile_cons, if_pos hh]
    have hf := goodChars_follow c rest hg hh
    cases rest with
    | nil => cases hf
    | cons d rest2 =>
      rw [headSat] at hf
      by_cases hd : isUpperAZ d
      · exact ih (goodChars_tail _ _ hg) (by rw [headSat]; exact hd)
      · rw [List.dropWhile_cons, if_neg hd]
        rw [headSat]
        exact hf

namespace ExcelTokenizer

theorem match_string_good (s : List Char) (hg : goodChars s = true) :
    match_string s = none := by
  cases s with
  | nil => rfl
  | cons c rest =>
    simp only [match_string]
    rw [if_neg (basicChar_ne c (goodChars_basic _ _ hg) '"' (by decide))]

theorem headIs_drop_false (ch : Char) (s : List Char) (n : Nat)
    (hg : goodChars s = true) (hch : basicChar ch = false) :
    headIs ch (s.drop n) = false := by
  cases hd : s.drop n with
  | nil => rfl
  | cons d tail =>
    have hmem : d ∈ s := by
      have : d ∈ s.drop n := by rw [hd]; exact List.mem_cons_self d tail
      exact List.mem_of_mem_drop this
    rw [headIs]
    simp [basicChar_ne d (goodChars_mem s hg d hmem) ch hch]

theorem match_table_reference_good (s : List Char) (hg : goodChars s = true) :
    match_table_reference s = none := by
  cases s with
  | nil => rfl
  | cons c rest =>
    simp only [match_table_reference]
    by_cases hid : isIdentStart c
    · rw [if_pos hid]
      rw [headIs_drop_false '[' (c :: rest) _ hg (by decide)]
      simp
    · rw [if_neg hid]

theorem bare_sheet_good (s : List Char) (hg : goodChars s = true) :
    bare_sheet s = none := by
  cases s with
  | nil => rfl
  | cons c rest =>
    simp only [bare_sheet]
    by_cases hid : isIdentStart c
    · rw [if_pos hid]
      rw [headIs_drop_false '!' (c :: rest) _ hg (by decide)]
      simp
    · rw [if_neg hid]

theorem match_sheet_reference_good (s : List Char) (hg : goodChars s = true) :
    match_sheet_reference s = none := by
  rw [match_sheet_reference]
  have hq : headIs '\'' s = false := by
    cases s with
    | nil => rfl
    | cons c rest =>
      rw [headIs]
      simp [basicChar_ne c (goodChars_basic _ _ hg) '\'' (by decide)]
  rw [hq]
  simp [bare_sheet_good s hg]

theorem match_range_good (s : List Char) (hg : goodChars s = true) :
    match_range s = none := by
  rw [match_range]
  cases hcp : cell_pattern s with
  | none => rfl
  | some n1 =>
    simp only [headIs_drop_false ':' s n1 hg (by decide)]
    simp

end ExcelTokenizer

namespace ExcelTokenizer

/-- A successful cell-reference match on good characters yields a `SafeTV`
`CELL_REF` token. -/
theorem match_cell_reference_good (s : List Char) (v : TokenValue) (n : Nat)
    (h : match_cell_reference s = some (v, n)) : SafeTV .CELL_REF v := by
  rcases hcp : cell_pattern s with _ | k
  · simp [match_cell_reference, hcp] at h
  · simp only [match_cell_reference, hcp, Option.map_some', Option.some.injEq,
      Prod.mk.injEq] at h
    obtain ⟨hv, hn⟩ := h
    obtain ⟨d1, ls, d2, ds, h1, h2, h3, h4, h5, h6, h7, h8⟩ := cell_pattern_shape s k hcp
    refine Or.inr (Or.inl ⟨rfl, String.mk (s.take k), hv.symm, ?_⟩)
    simp only [h1, List.all_append, Bool.and_eq_true]
    have pred_of_upper : ∀ c ∈ ls, (c = '$' || isUpperAZ c || c.isDigit) = true := by
      intro c hc
      have := List.all_eq_true.mp h4 c hc
      simp [this]
    have pred_of_digit : ∀ c ∈ ds, (c = '$' || isUpperAZ c || c.isDigit) = true := by
      intro c hc
      have := List.all_eq_true.mp h7 c hc
      simp [this]
    refine ⟨⟨⟨?_, ?_⟩, ?_⟩, ?_⟩
    · rcases h2 with rfl | rfl <;> decide
    · exact List.all_eq_true.mpr pred_of_upper
    · rcases h5 with rfl | rfl <;> decide
    · exact List.all_eq_true.mpr pred_of_digit

/-- `match_number` only ever produces a float payload. -/
theorem match_number_shape (s : List Char) (v : TokenValue) (n : Nat)
    (h : match_number s = some (v, n)) : ∃ f, v = .vNum f := by
  rw [match_number] at h
  rcases hcore : match_number_core s with _ | ⟨f, m⟩
  · simp only [hcore] at h; cases h
  · simp only [hcore] at h
    by_cases hp : headIs '%' (s.drop m) = true
    · simp only [if_pos hp, Option.some.injEq, Prod.mk.injEq] at h
      exact ⟨_, h.1.symm⟩
    · simp only [if_neg hp, Option.some.injEq, Prod.mk.injEq] at h
      exact ⟨_, h.1.symm⟩

/-- On good characters an identifier-start character must be an uppercase
letter. -/
theorem good_ident_upper (c : Char) (hbc : basicChar c = true)
    (hid : isIdentStart c = true) : isUpperAZ c = true := by
  by_cases hu : isUpperAZ c = true
  · exact hu
  · exfalso
    simp only [isIdentStart, isAlphaAZ, Bool.or_eq_true, decide_eq_true_eq] at hid
    rcases hid with (hu' | hl) | rfl
    · exact hu hu'
    · simp only [basicChar, Bool.or_eq_true, decide_eq_true_eq] at hbc
      rcases hbc with (((((((((((hd | rfl) | hup) | rfl) | rfl) | rfl) | rfl) | rfl) | rfl) | rfl) | rfl) | rfl)
      · exact not_digit_and_lower c hd hl
      · exact absurd hl (by decide)
      · exact not_lower_and_upper c hl hup
      all_goals exact absurd hl (by decide)
    · exact absurd hbc (by decide)

/-- The crux of the C3 tokenizer analysis: on a good-character suffix where
the cell matcher has failed, the function matcher fails too (letters are
always followed by a letter, digit or `$`, never by the `(` the lookahead
requires). -/
theorem match_function_good (s : List Char) (hg : goodChars s = true)
    (hcell : match_cell_reference s = none) : match_function s = none := by
  cases s with
  | nil => rfl
  | cons c rest =>
    simp only [match_function]
    by_cases hid : isIdentStart c
    · rw [if_pos hid]
      have hu : isUpperAZ c = true := good_ident_upper c (goodChars_basic _ _ hg) hid
      have hcp : cell_pattern (c :: rest) = none := by
        rcases hcp : cell_pattern (c :: rest) with _ | k
        · rfl
        · rw [match_cell_reference, hcp] at hcell
          simp at hcell
      have hdollar : headIs '$' (c :: rest) = false := by
        rw [headIs]
        simp only [decide_eq_false_iff_not]
        intro hc
        rw [hc] at hu
        exact absurd hu (by decide)
      unfold cell_pattern at hcp
      rw [hdollar] at hcp
      simp only [Bool.false_eq_true, if_false] at hcp
      have hls_ne : ((c :: rest).takeWhile isUpperAZ).isEmpty = false := by
        rw [List.takeWhile_cons, if_pos hu]
        rfl
      rw [hls_ne] at hcp
      simp only [Bool.false_eq_true, if_false] at hcp
      have hnext := good_dropWhile_upper (c :: rest) hg (by rw [headSat]; exact hu)
      rw [← drop_length_takeWhile isUpperAZ (c :: rest)] at hnext
      rcases hs2 : (c :: rest).drop ((c :: rest).takeWhile isUpperAZ).length
        with _ | ⟨d0, tail⟩
      · rw [hs2] at hnext; cases hnext
      · rw [hs2] at hnext hcp
        rw [headSat] at hnext
        have hd0_notupper : isUpperAZ d0 = false := by
          have hds := headSat_dropWhile isUpperAZ (c :: rest)
          rw [← drop_length_takeWhile isUpperAZ (c :: rest), hs2, headSat] at hds
          exact hds
        by_cases hd0 : d0 = '$'
        · -- the run is blocked by `$`, which also blocks the function class
          subst hd0
          have hrun : (c :: rest).takeWhile
              (fun ch => isAlphaAZ ch || ch.isDigit || ch = '_' || ch = '.') =
              (c :: rest).takeWhile isUpperAZ := by
            apply takeWhile_eq_of
            · intro x hx
              simp [isAlphaAZ, hx]
            · rw [← drop_length_takeWhile isUpperAZ (c :: rest), hs2, headSat]
              decide
          rw [hrun, hs2, headIs]
          simp
        · -- otherwise the next character must be a digit, and the cell
          -- pattern would then have succeeded: contradiction
          exfalso
          simp only [Bool.or_eq_true, decide_eq_true_eq] at hnext
          have hdsd : headIs '$' (d0 :: tail) = false := by
            rw [headIs]
            simp [hd0]
          rw [hdsd] at hcp
          simp only [Bool.false_eq_true, if_false] at hcp
          rcases hnext with (hu0 | hdig) | hd0e
          · rw [hu0] at hd0_notupper; cases hd0_notupper
          · rw [List.takeWhile_cons, if_pos hdig] at hcp
            simp at hcp
          · exact hd0 hd0e
    · rw [if_neg hid]

end ExcelTokenizer

namespace ExcelTokenizer

/-- On good characters, a successful operator match is one of the six
arithmetic/concatenation operators (the comparison heads `<`, `>`, `=` are
outside the alphabet). -/
theorem match_operator_good (s : List Char) (hg : goodChars s = true)
    (v : TokenValue) (n : Nat) (h : match_operator s = some (v, n)) :
    SafeTV .OPERATOR v := by
  cases s with
  | nil => cases h
  | cons c rest =>
    have hbc := goodChars_basic _ _ hg
    simp only [match_operator] at h
    rw [if_neg (basicChar_ne c hbc '<' (by decide))] at h
    rw [if_neg (basicChar_ne c hbc '>' (by decide))] at h
    rw [if_neg (basicChar_ne c hbc '=' (by decide))] at h
    by_cases h4 : c = '+'
    · rw [if_pos h4] at h
      simp only [Option.some.injEq, Prod.mk.injEq] at h
      exact Or.inr (Or.inr (Or.inl ⟨rfl, "+", h.1.symm, Or.inl rfl⟩))
    rw [if_neg h4] at h
    by_cases h5 : c = '-'
    · rw [if_pos h5] at h
      simp only [Option.some.injEq, Prod.mk.injEq] at h
      exact Or.inr (Or.inr (Or.inl ⟨rfl, "-", h.1.symm, Or.inr (Or.inl rfl)⟩))
    rw [if_neg h5] at h
    by_cases h6 : c = '*'
    · rw [if_pos h6] at h
      simp only [Option.some.injEq, Prod.mk.injEq] at h
      exact Or.inr (Or.inr (Or.inl ⟨rfl, "*", h.1.symm, Or.inr (Or.inr (Or.inl rfl))⟩))
    rw [if_neg h6] at h
    by_cases h7 : c = '/'
    · rw [if_pos h7] at h
      simp only [Option.some.injEq, Prod.mk.injEq] at h
      exact Or.inr (Or.inr (Or.inl ⟨rfl, "/", h.1.symm,
        Or.inr (Or.inr (Or.inr (Or.inl rfl)))⟩))
    rw [if_neg h7] at h
    by_cases h8 : c = '^'
    · rw [if_pos h8] at h
      simp only [Option.some.injEq, Prod.mk.injEq] at h
      exact Or.inr (Or.inr (Or.inl ⟨rfl, "^", h.1.symm,
        Or.inr (Or.inr (Or.inr (Or.inr (Or.inl rfl))))⟩))
    rw [if_neg h8] at h
    by_cases h9 : c = '&'
    · rw [if_pos h9] at h
      simp only [Option.some.injEq, Prod.mk.injEq] at h
      exact Or.inr (Or.inr (Or.inl ⟨rfl, "&", h.1.symm,
        Or.inr (Or.inr (Or.inr (Or.inr (Or.inr rfl))))⟩))
    rw [if_neg h9] at h
    cases h

/-- On good characters, punctuation matches are parentheses only (`,` is
outside the alphabet). -/
theorem match_punctuation_good (s : List Char) (hg : goodChars s = true)
    (t : TokenType) (v : TokenValue) (n : Nat)
    (h : match_punctuation s = some (t, v, n)) : SafeTV t v := by
  cases s with
  | nil => cases h
  | cons c rest =>
    have hbc := goodChars_basic _ _ hg
    simp only [match_punctuation] at h
    by_cases h1 : c = '('
    · rw [if_pos h1] at h
      simp only [Option.some.injEq, Prod.mk.injEq] at h
      obtain ⟨ht, -, -⟩ := h
      exact Or.inr (Or.inr (Or.inr (Or.inl ht.symm)))
    rw [if_neg h1] at h
    by_cases h2 : c = ')'
    · rw [if_pos h2] at h
      simp only [Option.some.injEq, Prod.mk.injEq] at h
      obtain ⟨ht, -, -⟩ := h
      exact Or.inr (Or.inr (Or.inr (Or.inr (Or.inl ht.symm))))
    rw [if_neg h2] at h
    rw [if_neg (basicChar_ne c hbc ',' (by decide))] at h
    cases h

/-- On good characters, every token the matcher chain produces has one of the
`SafeTV` shapes. -/
theorem try_matchers_good (s : List Char) (hg : goodChars s = true)
    (t : TokenType) (v : TokenValue) (n : Nat)
    (h : try_matchers s = some (t, v, n)) : SafeTV t v := by
  rw [try_matchers] at h
  simp only [match_string_good s hg, match_table_reference_good s hg,
    match_sheet_reference_good s hg, match_range_good s hg] at h
  rcases hcell : match_cell_reference s with _ | ⟨vc, nc⟩
  · simp only [hcell] at h
    rcases hnum : match_number s with _ | ⟨vn, nn⟩
    · simp only [hnum] at h
      simp only [match_function_good s hg hcell] at h
      rcases hop : match_operator s with _ | ⟨vo, no⟩
      · simp only [hop] at h
        exact match_punctuation_good s hg t v n h
      · simp only [hop, Option.some.injEq, Prod.mk.injEq] at h
        obtain ⟨ht, hv, -⟩ := h
        rw [← ht, ← hv]
        exact match_operator_good s hg vo no hop
    · simp only [hnum, Option.some.injEq, Prod.mk.injEq] at h
      obtain ⟨ht, hv, -⟩ := h
      obtain ⟨f, hf⟩ := match_number_shape s vn nn hnum
      rw [← ht, ← hv]
      exact Or.inl ⟨rfl, f, hf⟩
  · simp only [hcell, Option.some.injEq, Prod.mk.injEq] at h
    obtain ⟨ht, hv, -⟩ := h
    rw [← ht, ← hv]
    exact match_cell_reference_good s vc nc hcell

/-- Every token the scan loop produces from a good-character suffix has a
`SafeTV` shape. -/
theorem tokenizeAux_safe : ∀ (fuel : Nat) (s : List Char) (pos : Nat),
    goodChars s = true →
    ∀ tok ∈ tokenizeAux fuel s pos, SafeTV tok.type tok.value := by
  intro fuel
  induction fuel with
  | zero =>
    intro s pos hg tok htok
    cases s with
    | nil =>
      simp only [tokenizeAux, List.mem_singleton] at htok
      subst htok
      exact Or.inr (Or.inr (Or.inr (Or.inr (Or.inr rfl))))
    | cons c rest =>
      simp only [tokenizeAux, List.mem_singleton] at htok
      subst htok
      exact Or.inr (Or.inr (Or.inr (Or.inr (Or.inr rfl))))
  | succ fuel ih =>
    intro s pos hg tok htok
    cases s with
    | nil =>
      simp only [tokenizeAux, List.mem_singleton] at htok
      subst htok
      exact Or.inr (Or.inr (Or.inr (Or.inr (Or.inr rfl))))
    | cons c rest =>
      simp only [tokenizeAux] at htok
      by_cases hw : c.isWhitespace
      · rw [if_pos hw] at htok
        exact ih rest (pos + 1) (goodChars_tail _ _ hg) tok htok
      · rw [if_neg hw] at htok
        rcases htm : try_matchers (c :: rest) with _ | ⟨t, v, n⟩
        · simp only [htm] at htok
          exact ih rest (pos + 1) (goodChars_tail _ _ hg) tok htok
        · simp only [htm] at htok
          rcases List.mem_cons.mp htok with rfl | htok'
          · exact try_matchers_good (c :: rest) hg t v n htm
          · exact ih _ _ (goodChars_drop _ hg n) tok htok'

/-- Every token of a tokenized good-character formula has a `SafeTV` shape. -/
theorem tokenize_safe (f : String) (hg : goodChars (stripFormula f) = true) :
    ∀ tok ∈ tokenize f, SafeTV tok.type tok.value := by
  rw [tokenize]
  exact tokenizeAux_safe _ _ _ hg

end ExcelTokenizer

namespace ExcelParser

/-- On a token stream of `SafeTV` shapes, `_parse_primary` succeeds with a
`SafeAST` node: numbers stay numbers, cell references carry no sheet, the
string/sheet/range/table/function branches are unreachable, and the stray-token
fallback is the zero number node. -/
theorem parse_primary_safe (tokens : List Token) (recur : Nat → PResult)
    (hne : tokens ≠ []) (hS : ∀ t ∈ tokens, SafeTV t.type t.value)
    (hrec : ∀ pos, ∃ a p, recur pos = .ok (a, p) ∧ SafeAST a)
    (fuel pos : Nat) :
    ∃ a p, parse_primary tokens recur fuel pos = .ok (a, p) ∧ SafeAST a := by
  obtain ⟨t, ht, htm⟩ := current_token_ok tokens hne pos
  have hst := hS t htm
  rw [parse_primary]
  simp only [ht, bind, Except.bind]
  by_cases h1 : t.type = TokenType.NUMBER
  · rw [if_pos h1]
    exact ⟨_, _, rfl, SafeAST.num _⟩
  rw [if_neg h1]
  by_cases h2 : t.type = TokenType.STRING
  · exfalso
    rcases hst with ⟨hty, -⟩ | ⟨hty, -⟩ | ⟨hty, -⟩ | hty | hty | hty <;>
      (rw [h2] at hty; exact absurd hty (by decide))
  rw [if_neg h2]
  have main : ∀ pos1 : Nat,
      ∃ a p, (do
        let token2 ← current_token tokens pos1
        if token2.type = TokenType.CELL_REF then
          Except.ok (ASTNode.CellRefNode token2.value.getStr none, pos1 + 1)
        else if token2.type = TokenType.RANGE_REF then
          Except.ok (ASTNode.RangeRefNode token2.value.getStr none, pos1 + 1)
        else if token2.type = TokenType.TABLE_REF then
          Except.ok (ASTNode.TableRefNode token2.value.getTable token2.value.getColumn
            token2.value.getFull, pos1 + 1)
        else if token2.type = TokenType.FUNCTION then parse_function tokens recur fuel pos1
        else if token2.type = TokenType.LPAREN then do
          let q ← recur (pos1 + 1)
          let t3 ← current_token tokens q.2
          if t3.type = TokenType.RPAREN then Except.ok (q.1, q.2 + 1)
          else Except.ok (q.1, q.2)
        else Except.ok (ASTNode.NumberNode (PyNum.pint 0), pos1 + 1) : PResult)
        = .ok (a, p) ∧ SafeAST a := by
    intro pos1
    obtain ⟨t2, ht2, htm2⟩ := current_token_ok tokens hne pos1
    have hst2 := hS t2 htm2
    simp only [ht2, bind, Except.bind]
    by_cases c1 : t2.type = TokenType.CELL_REF
    · rw [if_pos c1]
      rcases hst2 with ⟨hty, -⟩ | ⟨hty, s, hv, hall⟩ | ⟨hty, -⟩ | hty | hty | hty
      · rw [c1] at hty; exact absurd hty (by decide)
      · refine ⟨_, _, rfl, ?_⟩
        rw [hv]
        exact SafeAST.cell s hall
      · rw [c1] at hty; exact absurd hty (by decide)
      · rw [c1] at hty; exact absurd hty (by decide)
      · rw [c1] at hty; exact absurd hty (by decide)
      · rw [c1] at hty; exact absurd hty (by decide)
    rw [if_neg c1]
    by_cases c2 : t2.type = TokenType.RANGE_REF
    · exfalso
      rcases hst2 with ⟨hty, -⟩ | ⟨hty, -⟩ | ⟨hty, -⟩ | hty | hty | hty <;>
        (rw [c2] at hty; exact absurd hty (by decide))
    rw [if_neg c2]
    by_cases c3 : t2.type = TokenType.TABLE_REF
    · exfalso
      rcases hst2 with ⟨hty, -⟩ | ⟨hty, -⟩ | ⟨hty, -⟩ | hty | hty | hty <;>
        (rw [c3] at hty; exact absurd hty (by decide))
    rw [if_neg c3]
    by_cases c4 : t2.type = TokenType.FUNCTION
    · exfalso
      rcases hst2 with ⟨hty, -⟩ | ⟨hty, -⟩ | ⟨hty, -⟩ | hty | hty | hty <;>
        (rw [c4] at hty; exact absurd hty (by decide))
    rw [if_neg c4]
    by_cases c5 : t2.type = TokenType.LPAREN
    · rw [if_pos c5]
      obtain ⟨e, pos2, hr, he⟩ := hrec (pos1 + 1)
      obtain ⟨t3, ht3, -⟩ := current_token_ok tokens hne pos2
      simp only [hr, ht3, bind, Except.bind]
      by_cases c6 : t3.type = TokenType.RPAREN
      · rw [if_pos c6]; exact ⟨_, _, rfl, he⟩
      · rw [if_neg c6]; exact ⟨_, _, rfl, he⟩
    · rw [if_neg c5]
      exact ⟨_, _, rfl, SafeAST.num _⟩
  by_cases h3 : t.type = TokenType.SHEET_REF
  · exfalso
    rcases hst with ⟨hty, -⟩ | ⟨hty, -⟩ | ⟨hty, -⟩ | hty | hty | hty <;>
      (rw [h3] at hty; exact absurd hty (by decide))
  · simp only [if_neg h3]
    exact main pos

/-- On a `SafeTV` stream, `_parse_unary` succeeds with a `SafeAST` node: the
prefix wrappers are only `-` and `+`. -/
theorem parse_unary_safe (tokens : List Token) (recur : Nat → PResult)
    (hne : tokens ≠ []) (hS : ∀ t ∈ tokens, SafeTV t.type t.value)
    (hrec : ∀ pos, ∃ a p, recur pos = .ok (a, p) ∧ SafeAST a) :
    ∀ fuel pos, ∃ a p, parse_unary tokens recur fuel pos = .ok (a, p) ∧ SafeAST a := by
  intro fuel
  induction fuel with
  | zero => exact fun pos => ⟨_, _, rfl, SafeAST.num _⟩
  | succ fuel ih =>
    intro pos
    obtain ⟨t, ht, -⟩ := current_token_ok tokens hne pos
    rw [parse_unary]
    simp only [ht, bind, Except.bind]
    by_cases hc : t.type = TokenType.OPERATOR ∧
        (t.value.getStr = "-" ∨ t.value.getStr = "+")
    · rw [if_pos hc]
      obtain ⟨operand, pos1, ho, hso⟩ := ih (pos + 1)
      simp only [ho]
      exact ⟨_, _, rfl, SafeAST.una _ _ hc.2 hso⟩
    · rw [if_neg hc]
      exact parse_primary_safe tokens recur hne hS hrec fuel pos

/-- On a `SafeTV` stream, `_parse_power` succeeds with a `SafeAST` node. -/
theorem parse_power_safe (tokens : List Token) (recur : Nat → PResult)
    (hne : tokens ≠ []) (hS : ∀ t ∈ tokens, SafeTV t.type t.value)
    (hrec : ∀ pos, ∃ a p, recur pos = .ok (a, p) ∧ SafeAST a) :
    ∀ fuel pos, ∃ a p, parse_power tokens recur fuel pos = .ok (a, p) ∧ SafeAST a := by
  intro fuel
  induction fuel with
  | zero => exact fun pos => ⟨_, _, rfl, SafeAST.num _⟩
  | succ fuel ih =>
    intro pos
    obtain ⟨left, pos1, hl, hsl⟩ := parse_unary_safe tokens recur hne hS hrec fuel pos
    obtain ⟨t, ht, -⟩ := current_token_ok tokens hne pos1
    rw [parse_power]
    simp only [hl, ht, bind, Except.bind]
    by_cases hc : t.type = TokenType.OPERATOR ∧ t.value.getStr = "^"
    · rw [if_pos hc]
      obtain ⟨right, pos2, hr, hsr⟩ := ih (pos1 + 1)
      simp only [hr]
      refine ⟨_, _, rfl, SafeAST.bin "^" left right ?_ hsl hsr⟩
      exact Or.inr (Or.inr (Or.inr (Or.inr (Or.inl rfl))))
    · rw [if_neg hc]; exact ⟨_, _, rfl, hsl⟩

/-- On a `SafeTV` stream, the left-associative binary-operator loop preserves
`SafeAST`: any operator it consumes is one of the six safe operators. -/
theorem bin_op_loop_safe (tokens : List Token) (next : Nat → PResult)
    (ops : List String) (hne : tokens ≠ [])
    (hS : ∀ t ∈ tokens, SafeTV t.type t.value)
    (hnext : ∀ pos, ∃ a p, next pos = .ok (a, p) ∧ SafeAST a) :
    ∀ fuel left pos, SafeAST left →
      ∃ a p, bin_op_loop tokens next ops fuel left pos = .ok (a, p) ∧ SafeAST a := by
  intro fuel
  induction fuel with
  | zero => exact fun left pos hsl => ⟨_, _, rfl, hsl⟩
  | succ fuel ih =>
    intro left pos hsl
    obtain ⟨t, ht, htm⟩ := current_token_ok tokens hne pos
    rw [bin_op_loop]
    simp only [ht, bind, Except.bind]
    by_cases hc : t.type = TokenType.OPERATOR ∧ t.value.getStr ∈ ops
    · rw [if_pos hc]
      obtain ⟨right, pos1, hr, hsr⟩ := hnext (pos + 1)
      simp only [hr]
      have hop : t.value.getStr = "+" ∨ t.value.getStr = "-" ∨
          t.value.getStr = "*" ∨ t.value.getStr = "/" ∨
          t.value.getStr = "^" ∨ t.value.getStr = "&" := by
        rcases hS t htm with ⟨hty, -⟩ | ⟨hty, -⟩ | ⟨-, s, hv, hsix⟩ | hty | hty | hty
        · rw [hc.1] at hty; exact absurd hty (by decide)
        · rw [hc.1] at hty; exact absurd hty (by decide)
        · rw [hv]; exact hsix
        · rw [hc.1] at hty; exact absurd hty (by decide)
        · rw [hc.1] at hty; exact absurd hty (by decide)
        · rw [hc.1] at hty; exact absurd hty (by decide)
      exact ih _ _ (SafeAST.bin _ _ _ hop hsl hsr)
    · rw [if_neg hc]; exact ⟨_, _, rfl, hsl⟩

/-- On a `SafeTV` stream, `_parse_multiplication` yields a `SafeAST` node. -/
theorem parse_multiplication_safe (tokens : List Token) (recur : Nat → PResult)
    (hne : tokens ≠ []) (hS : ∀ t ∈ tokens, SafeTV t.type t.value)
    (hrec : ∀ pos, ∃ a p, recur pos = .ok (a, p) ∧ SafeAST a)
    (fuel pos : Nat) :
    ∃ a p, parse_multiplication tokens recur fuel pos = .ok (a, p) ∧ SafeAST a := by
  obtain ⟨left, pos1, hl, hsl⟩ := parse_power_safe tokens recur hne hS hrec fuel pos
  rw [parse_multiplication]
  simp only [hl, bind, Except.bind]
  exact bin_op_loop_safe tokens _ _ hne hS
    (parse_power_safe tokens recur hne hS hrec fuel) fuel _ _ hsl

/-- On a `SafeTV` stream, `_parse_addition` yields a `SafeAST` node. -/
theorem parse_addition_safe (tokens : List Token) (recur : Nat → PResult)
    (hne : tokens ≠ []) (hS : ∀ t ∈ tokens, SafeTV t.type t.value)
    (hrec : ∀ pos, ∃ a p, recur pos = .ok (a, p) ∧ SafeAST a)
    (fuel pos : Nat) :
    ∃ a p, parse_addition tokens recur fuel pos = .ok (a, p) ∧ SafeAST a := by
  obtain ⟨left, pos1, hl, hsl⟩ :=
    parse_multiplication_safe tokens recur hne hS hrec fuel pos
  rw [parse_addition]
  simp only [hl, bind, Except.bind]
  exact bin_op_loop_safe tokens _ _ hne hS
    (parse_multiplication_safe tokens recur hne hS hrec fuel) fuel _ _ hsl

/-- On a `SafeTV` stream, `_parse_concat` yields a `SafeAST` node. -/
theorem parse_concat_safe (tokens : List Token) (recur : Nat → PResult)
    (hne : tokens ≠ []) (hS : ∀ t ∈ tokens, SafeTV t.type t.value)
    (hrec : ∀ pos, ∃ a p, recur pos = .ok (a, p) ∧ SafeAST a)
    (fuel pos : Nat) :
    ∃ a p, parse_concat tokens recur fuel pos = .ok (a, p) ∧ SafeAST a := by
  obtain ⟨left, pos1, hl, hsl⟩ := parse_addition_safe tokens recur hne hS hrec fuel pos
  rw [parse_concat]
  simp only [hl, bind, Except.bind]
  exact bin_op_loop_safe tokens _ _ hne hS
    (parse_addition_safe tokens recur hne hS hrec fuel) fuel _ _ hsl

/-- On a `SafeTV` stream, `_parse_comparison` yields a `SafeAST` node (the
comparison operators themselves are outside the safe token shapes, so the loop
never fires). -/
theorem parse_comparison_safe (tokens : List Token) (recur : Nat → PResult)
    (hne : tokens ≠ []) (hS : ∀ t ∈ tokens, SafeTV t.type t.value)
    (hrec : ∀ pos, ∃ a p, recur pos = .ok (a, p) ∧ SafeAST a)
    (fuel pos : Nat) :
    ∃ a p, parse_comparison tokens recur fuel pos = .ok (a, p) ∧ SafeAST a := by
  obtain ⟨left, pos1, hl, hsl⟩ := parse_concat_safe tokens recur hne hS hrec fuel pos
  rw [parse_comparison]
  simp only [hl, bind, Except.bind]
  exact bin_op_loop_safe tokens _ _ hne hS
    (parse_concat_safe tokens recur hne hS hrec fuel) fuel _ _ hsl

/-- On a `SafeTV` stream, `_parse_expression` yields a `SafeAST` node at every
fuel level. -/
theorem parse_expression_safe (tokens : List Token) (hne : tokens ≠ [])
    (hS : ∀ t ∈ tokens, SafeTV t.type t.value) :
    ∀ fuel pos, ∃ a p, parse_expression tokens fuel pos = .ok (a, p) ∧ SafeAST a := by
  intro fuel
  induction fuel with
  | zero => exact fun pos => ⟨_, _, rfl, SafeAST.num _⟩
  | succ fuel ih =>
    intro pos
    rw [parse_expression]
    exact parse_comparison_safe tokens _ hne hS ih fuel pos

/-- On a non-empty `SafeTV` stream, `parse` succeeds and the resulting AST is
a `SafeAST`. -/
theorem parse_safe (tokens : List Token) (hne : tokens ≠ [])
    (hS : ∀ t ∈ tokens, SafeTV t.type t.value) :
    ∃ a, parse tokens = .ok a ∧ SafeAST a := by
  obtain ⟨a, p, h, hs⟩ := parse_expression_safe tokens hne hS (parser_fuel tokens) 0
  exact ⟨a, by rw [parse, h]; rfl, hs⟩

end ExcelParser

/-! `noSS` (no `/*` substring) machinery for the C3 converter analysis. -/

theorem data_append_eq (a b : String) : (a ++ b).data = a.data ++ b.data := rfl

theorem noSS_cons_of_ne (c : Char) (b : List Char) (hc : ¬(c = '/'))
    (hb : noSS b = true) : noSS (c :: b) = true := by
  rw [noSS]
  simp [hc, hb]

theorem noSS_append_head (a b : List Char) (ha : noSS a = true)
    (hb : noSS b = true) (hbh : headIs '*' b = false) :
    noSS (a ++ b) = true := by
  induction a with
  | nil => simpa using hb
  | cons c a2 ih =>
    rw [noSS] at ha
    simp only [Bool.and_eq_true] at ha
    rw [List.cons_append, noSS]
    simp only [Bool.and_eq_true]
    refine ⟨?_, ih ha.2⟩
    cases a2 with
    | nil => simp [hbh]
    | cons c2 a3 =>
      rw [List.cons_append]
      exact ha.1

theorem noSS_of_no_slash (l : List Char) (h : ∀ c ∈ l, ¬(c = '/')) :
    noSS l = true := by
  induction l with
  | nil => rfl
  | cons c rest ih =>
    rw [noSS]
    simp [h c (List.mem_cons_self c rest),
      ih (fun d hd => h d (List.mem_cons_of_mem c hd))]

theorem dropWhile_mem (p : Char → Bool) (l : List Char) (c : Char)
    (hc : c ∈ l.dropWhile p) : c ∈ l := by
  induction l with
  | nil => simp at hc
  | cons d rest ih =>
    rw [List.dropWhile_cons] at hc
    by_cases h : p d
    · rw [if_pos h] at hc
      exact List.mem_cons_of_mem d (ih hc)
    · rw [if_neg h] at hc
      exact hc

namespace ExcelToSQLConverter

theorem natDigitsAux_mem : ∀ (fuel n : Nat) (c : Char),
    c ∈ natDigitsAux fuel n → ∃ k, c = digitCh k := by
  intro fuel
  induction fuel with
  | zero =>
    intro n c hc
    simp [natDigitsAux] at hc
  | succ fuel ih =>
    intro n c hc
    rw [natDigitsAux] at hc
    by_cases h : n < 10
    · rw [if_pos h] at hc
      rcases List.mem_singleton.mp hc with rfl
      exact ⟨n, rfl⟩
    · rw [if_neg h] at hc
      rcases List.mem_append.mp hc with h1 | h1
      · exact ih (n / 10) c h1
      · rcases List.mem_singleton.mp h1 with rfl
        exact ⟨n % 10, rfl⟩

theorem natRepr_no_slash (n : Nat) : ∀ c ∈ natRepr n, ¬(c = '/') := by
  intro c hc
  obtain ⟨k, rfl⟩ := natDigitsAux_mem (n + 1) n c hc
  exact (digitCh_ne k).1

theorem stripTrailingZeros_mem (ds : List Char) (c : Char)
    (hc : c ∈ stripTrailingZeros ds) : c ∈ ds := by
  rw [stripTrailingZeros] at hc
  rw [List.mem_reverse] at hc
  have := dropWhile_mem _ _ c hc
  rwa [List.mem_reverse] at this

theorem padZeros_mem (k : Nat) (ds : List Char) (c : Char)
    (hc : c ∈ padZeros k ds) : c = '0' ∨ c ∈ ds := by
  rw [padZeros] at hc
  rcases List.mem_append.mp hc with h | h
  · exact Or.inl (List.eq_of_mem_replicate h)
  · exact Or.inr h

theorem pyFloatRepr_no_slash (f : PyFloat) :
    ∀ c ∈ (pyFloatRepr f).data, ¬(c = '/') := by
  intro c hc
  rw [pyFloatRepr] at hc
  simp only [data_append_eq, List.mem_append] at hc
  rcases hc with ((h1 | h2) | h3) | h4
  · by_cases hn : f.num < 0
    · rw [if_pos hn] at h1
      rw [show ("-".data) = ['-'] from rfl] at h1
      rcases List.mem_singleton.mp h1 with rfl
      decide
    · rw [if_neg hn] at h1
      simp [show ("".data) = ([] : List Char) from rfl] at h1
  · exact natRepr_no_slash _ c h2
  · rcases List.mem_singleton.mp h3 with rfl
    decide
  · by_cases hfe : (stripTrailingZeros (padZeros f.exp
        (natRepr (f.num.natAbs % 10 ^ f.exp)))).isEmpty = true
    · rw [if_pos hfe] at h4
      rw [show ("0".data) = ['0'] from rfl] at h4
      rcases List.mem_singleton.mp h4 with rfl
      decide
    · rw [if_neg hfe] at h4
      have h5 := stripTrailingZeros_mem _ c h4
      rcases padZeros_mem _ _ c h5 with rfl | h6
      · decide
      · exact natRepr_no_slash _ c h6

theorem pyNumRepr_no_slash (v : PyNum) :
    ∀ c ∈ (pyNumRepr v).data, ¬(c = '/') := by
  intro c hc
  cases v with
  | pfloat f => exact pyFloatRepr_no_slash f c hc
  | pint n =>
    simp only [pyNumRepr, data_append_eq, List.mem_append] at hc
    rcases hc with h1 | h2
    · by_cases hn : n < 0
      · rw [if_pos hn] at h1
        rw [show ("-".data) = ['-'] from rfl] at h1
        rcases List.mem_singleton.mp h1 with rfl
        decide
      · rw [if_neg hn] at h1
        simp [show ("".data) = ([] : List Char) from rfl] at h1
    · exact natRepr_no_slash _ c h2

end ExcelToSQLConverter

theorem noSS_dictGet (m : List (String × String)) (k d : String)
    (hd : noSS d.data = true) :
    (∀ p ∈ m, noSS p.2.data = true) → noSS (dictGet m k d).data = true := by
  induction m with
  | nil => exact fun _ => hd
  | cons p m2 ih =>
    intro hm
    obtain ⟨k2, v⟩ := p
    rw [dictGet]
    cases hk : k == k2 with
    | true =>
      simp only [List.lookup, hk]
      exact hm (k2, v) (List.mem_cons_self _ _)
    | false =>
      simp only [List.lookup, hk]
      exact ih (fun q hq => hm q (List.mem_cons_of_mem _ hq))

theorem lower_upper_filter_no_slash (l : List Char)
    (hall : l.all (fun c => c = '$' || isUpperAZ c || c.isDigit) = true) :
    ∀ c ∈ (l.filter (fun c => ¬(c = '$' ∨ c.isDigit))).map Char.toLower,
      ¬(c = '/') := by
  intro c hc
  obtain ⟨c2, hc2, rfl⟩ := List.mem_map.mp hc
  have hmem := List.mem_of_mem_filter hc2
  have hpred := List.of_mem_filter hc2
  simp only [decide_eq_true_eq] at hpred
  have h3 := List.all_eq_true.mp hall c2 hmem
  simp only [Bool.or_eq_true, decide_eq_true_eq] at h3
  rcases h3 with (h | hup) | hd
  · exact absurd (Or.inl h) hpred
  · exact (upper_toLower_ne c2 hup).1
  · exact absurd (Or.inr hd) hpred

theorem convert_cell_ref_none_noSS (cm sm : List (String × String))
    (cur : String) (cell : String)
    (hcm : ∀ p ∈ cm, noSS p.2.data = true)
    (hall : cell.data.all (fun c => c = '$' || isUpperAZ c || c.isDigit) = true) :
    noSS (ExcelToSQLConverter.convert_cell_ref cm sm cur cell none).data = true := by
  rw [ExcelToSQLConverter.convert_cell_ref]
  exact noSS_dictGet cm
    (String.mk (cell.data.filter (fun c => ¬(c = '$' ∨ c.isDigit))))
    (strLower (String.mk (cell.data.filter (fun c => ¬(c = '$' ∨ c.isDigit)))))
    (noSS_of_no_slash _ (lower_upper_filter_no_slash cell.data hall)) hcm

theorem noSS_binop_shape (l op r : List Char) (hl : noSS l = true)
    (hop : noSS op = true) (hr : noSS r = true) :
    noSS ('(' :: (l ++ (' ' :: (op ++ (' ' :: (r ++ [')'])))))) = true := by
  have n1 : noSS (r ++ [')']) = true :=
    noSS_append_head r [')'] hr (by decide) (by decide)
  have n2 : noSS (' ' :: (r ++ [')'])) = true := noSS_cons_of_ne ' ' _ (by decide) n1
  have n3 : noSS (op ++ (' ' :: (r ++ [')']))) = true :=
    noSS_append_head op _ hop n2 rfl
  have n4 : noSS (' ' :: (op ++ (' ' :: (r ++ [')'])))) = true :=
    noSS_cons_of_ne ' ' _ (by decide) n3
  have n5 : noSS (l ++ (' ' :: (op ++ (' ' :: (r ++ [')']))))) = true :=
    noSS_append_head l _ hl n4 rfl
  exact noSS_cons_of_ne '(' _ (by decide) n5

theorem noSS_power_shape (l r : List Char) (hl : noSS l = true)
    (hr : noSS r = true) :
    noSS ('P' :: 'O' :: 'W' :: 'E' :: 'R' :: '(' ::
      (l ++ (',' :: ' ' :: (r ++ [')'])))) = true := by
  have n1 : noSS (r ++ [')']) = true :=
    noSS_append_head r [')'] hr (by decide) (by decide)
  have n2 : noSS (' ' :: (r ++ [')'])) = true := noSS_cons_of_ne ' ' _ (by decide) n1
  have n3 : noSS (',' :: ' ' :: (r ++ [')'])) = true :=
    noSS_cons_of_ne ',' _ (by decide) n2
  have n4 : noSS (l ++ (',' :: ' ' :: (r ++ [')']))) = true :=
    noSS_append_head l _ hl n3 rfl
  exact noSS_cons_of_ne 'P' _ (by decide) (noSS_cons_of_ne 'O' _ (by decide)
    (noSS_cons_of_ne 'W' _ (by decide) (noSS_cons_of_ne 'E' _ (by decide)
    (noSS_cons_of_ne 'R' _ (by decide) (noSS_cons_of_ne '(' _ (by decide) n4)))))

theorem noSS_unary_shape (x : List Char) (hx : noSS x = true) :
    noSS ('(' :: '-' :: (x ++ [')'])) = true :=
  noSS_cons_of_ne '(' _ (by decide) (noSS_cons_of_ne '-' _ (by decide)
    (noSS_append_head x [')'] hx (by decide) (by decide)))

theorem data_binop (l op r : String) :
    ("(" ++ l ++ " " ++ op ++ " " ++ r ++ ")").data
      = '(' :: (l.data ++ (' ' :: (op.data ++ (' ' :: (r.data ++ [')']))))) := by
  simp only [data_append_eq, List.append_assoc]; rfl

theorem data_power (l r : String) :
    ("POWER(" ++ l ++ ", " ++ r ++ ")").data
      = 'P' :: 'O' :: 'W' :: 'E' :: 'R' :: '(' ::
          (l.data ++ (',' :: ' ' :: (r.data ++ [')']))) := by
  simp only [data_append_eq, List.append_assoc]; rfl

theorem data_unary (x : String) :
    ("(-" ++ x ++ ")").data = '(' :: '-' :: (x.data ++ [')']) := by
  simp only [data_append_eq, List.append_assoc]; rfl

/-- On `SafeAST` nodes, the converter's output never contains the comment
opener `/*`, provided every `column_mappings` value is itself free of it:
numbers render to sign/digits/point, cell references resolve to mapped or
lowercased column names, and the binary/unary templates separate their pieces
with spaces, parentheses and commas. -/
theorem convert_node_safe (cm sm : List (String × String)) (cur : String)
    (hcm : ∀ p ∈ cm, noSS p.2.data = true) :
    ∀ ast, SafeAST ast →
      noSS (ExcelToSQLConverter.convert_node cm sm cur ast).data = true := by
  intro ast h
  induction h with
  | num v => exact noSS_of_no_slash _ (ExcelToSQLConverter.pyNumRepr_no_slash v)
  | cell cell hall => exact convert_cell_ref_none_noSS cm sm cur cell hcm hall
  | bin op l r hop hl hr ihl ihr =>
    simp only [ExcelToSQLConverter.convert_node]
    rcases hop with rfl | rfl | rfl | rfl | rfl | rfl
    · rw [if_neg (by decide : ¬(ExcelToSQLConverter.op_map "+" = "POWER"))]
      rw [data_binop]
      exact noSS_binop_shape _ _ _ ihl (by decide) ihr
    · rw [if_neg (by decide : ¬(ExcelToSQLConverter.op_map "-" = "POWER"))]
      rw [data_binop]
      exact noSS_binop_shape _ _ _ ihl (by decide) ihr
    · rw [if_neg (by decide : ¬(ExcelToSQLConverter.op_map "*" = "POWER"))]
      rw [data_binop]
      exact noSS_binop_shape _ _ _ ihl (by decide) ihr
    · rw [if_neg (by decide : ¬(ExcelToSQLConverter.op_map "/" = "POWER"))]
      rw [data_binop]
      exact noSS_binop_shape _ _ _ ihl (by decide) ihr
    · rw [if_pos (by decide : ExcelToSQLConverter.op_map "^" = "POWER")]
      rw [data_power]
      exact noSS_power_shape _ _ ihl ihr
    · rw [if_neg (by decide : ¬(ExcelToSQLConverter.op_map "&" = "POWER"))]
      rw [data_binop]
      exact noSS_binop_shape _ _ _ ihl (by decide) ihr
  | una op x hop hx ihx =>
    simp only [ExcelToSQLConverter.convert_node]
    rcases hop with rfl | rfl
    · rw [if_pos rfl]
      rw [data_unary]
      exact noSS_unary_shape _ ihx
    · rw [if_neg (by decide : ¬("+" = "-"))]
      exact ihx

/-- A `/*`-free string contains no substring that starts with `/*`. -/
theorem containsSub_slash_star (rest l : List Char) (h : noSS l = true) :
    containsSub ('/' :: '*' :: rest) l = false := by
  induction l with
  | nil => rfl
  | cons c l2 ih =>
    rw [noSS] at h
    simp only [Bool.and_eq_true] at h
    rw [containsSub, ih h.2, Bool.or_false]
    cases l2 with
    | nil => simp [List.isPrefixOf]
    | cons d l3 =>
      by_cases hc : c = '/'
      · by_cases hd : d = '*'
        · exfalso
          subst hc; subst hd
          have h1 := h.1
          rw [headIs] at h1
          simp at h1
        · simp [List.isPrefixOf, Ne.symm hd]
      · simp [List.isPrefixOf, Ne.symm hc]

/-! The C3 input class: every basic lexeme is a good-character string, so
every concatenation of basic lexemes is one. -/

theorem goodChars_of_no_upper (l : List Char)
    (hb : ∀ c ∈ l, basicChar c = true) (hu : ∀ c ∈ l, isUpperAZ c = false) :
    goodChars l = true := by
  induction l with
  | nil => rfl
  | cons c rest ih =>
    rw [goodChars]
    simp only [Bool.and_eq_true]
    refine ⟨⟨hb c (List.mem_cons_self c rest), ?_⟩,
      ih (fun d hd => hb d (List.mem_cons_of_mem c hd))
        (fun d hd => hu d (List.mem_cons_of_mem c hd))⟩
    rw [hu c (List.mem_cons_self c rest)]
    rfl

theorem num_lexeme_chars (l : List Char) (h : is_num_lexeme l = true) :
    ∀ c ∈ l, (c.isDigit || c = '.') = true := by
  cases l with
  | nil => cases h
  | cons c0 rest =>
    rw [is_num_lexeme] at h
    by_cases hc0 : c0 = '.'
    · rw [if_pos hc0] at h
      simp only [Bool.and_eq_true] at h
      intro c hc
      rcases List.mem_cons.mp hc with rfl | hc2
      · simp [hc0]
      · have := List.all_eq_true.mp h.2 c hc2
        simp [this]
    · rw [if_neg hc0] at h
      simp only [Bool.and_eq_true] at h
      intro c hc
      rcases hd : (c0 :: rest).drop (((c0 :: rest).takeWhile Char.isDigit).length)
        with _ | ⟨d, rest2⟩
      · have hsplit := List.take_append_drop
          (((c0 :: rest).takeWhile Char.isDigit).length) (c0 :: rest)
        rw [hd, List.append_nil] at hsplit
        rw [← hsplit] at hc
        rw [take_length_takeWhile] at hc
        have := List.all_eq_true.mp (all_takeWhile Char.isDigit (c0 :: rest)) c hc
        simp [this]
      · rw [hd] at h
        simp only [Bool.and_eq_true, decide_eq_true_eq] at h
        obtain ⟨-, hdot, hall2⟩ := h
        have hsplit := List.take_append_drop
          (((c0 :: rest).takeWhile Char.isDigit).length) (c0 :: rest)
        rw [hd] at hsplit
        rw [← hsplit] at hc
        rcases List.mem_append.mp hc with h1 | h2
        · rw [take_length_takeWhile] at h1
          have := List.all_eq_true.mp (all_takeWhile Char.isDigit (c0 :: rest)) c h1
          simp [this]
        · rcases List.mem_cons.mp h2 with rfl | h3
          · simp [hdot]
          · have := List.all_eq_true.mp hall2 c h3
            simp [this]

theorem num_lexeme_good (l : List Char) (h : is_num_lexeme l = true) :
    goodChars l = true := by
  apply goodChars_of_no_upper
  · intro c hc
    have h2 := num_lexeme_chars l h c hc
    simp only [Bool.or_eq_true, decide_eq_true_eq] at h2
    rcases h2 with hd | rfl
    · simp [basicChar, hd]
    · decide
  · intro c hc
    have h2 := num_lexeme_chars l h c hc
    simp only [Bool.or_eq_true, decide_eq_true_eq] at h2
    rcases h2 with hd | rfl
    · by_cases hu : isUpperAZ c = true
      · exact (not_digit_and_upper c hd hu).elim
      · simpa using hu
    · decide

theorem upper_run_good (ls X : List Char) (hall : ls.all isUpperAZ = true)
    (hX : goodChars X = true)
    (hhead : headSat (fun d => isUpperAZ d || d.isDigit || d = '$') X = true) :
    goodChars (ls ++ X) = true := by
  induction ls with
  | nil => simpa using hX
  | cons c ls2 ih =>
    simp only [List.all_cons, Bool.and_eq_true] at hall
    rw [List.cons_append, goodChars]
    simp only [Bool.and_eq_true]
    refine ⟨⟨by simp [basicChar, hall.1], ?_⟩, ih hall.2⟩
    cases ls2 with
    | nil =>
      simp only [List.nil_append]
      simp [hhead]
    | cons d ls3 =>
      rw [List.cons_append]
      have hd : isUpperAZ d = true := by
        simp only [List.all_cons, Bool.and_eq_true] at hall
        exact hall.2.1
      simp [headSat, hd]

theorem cell_lexeme_good (l : List Char) (h : is_cell_lexeme l = true) :
    goodChars l = true := by
  rw [is_cell_lexeme] at h
  rcases hcp : ExcelTokenizer.cell_pattern l with _ | n
  · rw [hcp] at h; cases h
  · rw [hcp] at h
    simp only [decide_eq_true_eq] at h
    obtain ⟨d1, ls, d2, ds, h1, h2, h3, h4, h5, h6, h7, h8⟩ := cell_pattern_shape l n hcp
    rw [h, List.take_length] at h1
    have hds : goodChars ds = true := by
      apply goodChars_of_no_upper
      · intro c hc
        have := List.all_eq_true.mp h7 c hc
        simp [basicChar, this]
      · intro c hc
        have hdg := List.all_eq_true.mp h7 c hc
        by_cases hu : isUpperAZ c = true
        · exact (not_digit_and_upper c hdg hu).elim
        · simpa using hu
    have hd2ds : goodChars (d2 ++ ds) = true := by
      rcases h5 with rfl | rfl
      · simpa using hds
      · rw [List.singleton_append, goodChars]
        simp only [Bool.and_eq_true, Bool.or_eq_true, Bool.not_eq_true']
        exact ⟨⟨by decide, Or.inl (by decide)⟩, hds⟩
    have hhead : headSat (fun d => isUpperAZ d || d.isDigit || d = '$')
        (d2 ++ ds) = true := by
      rcases h5 with rfl | rfl
      · cases ds with
        | nil => exact absurd rfl h6
        | cons e ds2 =>
          have := List.all_eq_true.mp h7 e (List.mem_cons_self e ds2)
          simp [headSat, this]
      · simp [headSat]
    have hlsgood : goodChars (ls ++ (d2 ++ ds)) = true :=
      upper_run_good ls (d2 ++ ds) h4 hd2ds hhead
    have hfull : goodChars (d1 ++ (ls ++ (d2 ++ ds))) = true := by
      rcases h2 with rfl | rfl
      · simpa using hlsgood
      · rw [List.singleton_append, goodChars]
        simp only [Bool.and_eq_true, Bool.or_eq_true, Bool.not_eq_true']
        exact ⟨⟨by decide, Or.inl (by decide)⟩, hlsgood⟩
    rw [h1]
    simpa [List.append_assoc] using hfull

theorem basic_lexeme_good (l : List Char) (h : is_basic_lexeme l = true) :
    goodChars l = true := by
  rw [is_basic_lexeme] at h
  simp only [Bool.or_eq_true, decide_eq_true_eq] at h
  rcases h with (((hn | hc) | hop) | rfl) | rfl
  · exact num_lexeme_good l hn
  · exact cell_lexeme_good l hc
  · rw [is_op_lexeme] at hop
    simp only [Bool.or_eq_true, decide_eq_true_eq] at hop
    rcases hop with ((((rfl | rfl) | rfl) | rfl) | rfl) | rfl <;> decide
  · decide
  · decide

theorem goodChars_flatten (ls : List (List Char))
    (h : ∀ l ∈ ls, is_basic_lexeme l = true) : goodChars ls.flatten = true := by
  induction ls with
  | nil => rfl
  | cons l ls2 ih =>
    rw [List.flatten_cons]
    exact goodChars_append _ _ (basic_lexeme_good l (h l (List.mem_cons_self _ _)))
      (ih (fun x hx => h x (List.mem_cons_of_mem _ hx)))

theorem dropWhile_eq_self_of (p : Char → Bool) (l : List Char)
    (h : ∀ c ∈ l, p c = false) : l.dropWhile p = l := by
  cases l with
  | nil => rfl
  | cons c rest =>
    rw [List.dropWhile_cons,
      if_neg (by simp [h c (List.mem_cons_self c rest)])]

/-- `lstrip('=').strip()` is the identity on concatenations of basic lexemes
(the alphabet contains neither `=` nor whitespace). -/
theorem stripFormula_renderLexemes (ls : List (List Char))
    (h : ∀ l ∈ ls, is_basic_lexeme l = true) :
    ExcelTokenizer.stripFormula (renderLexemes ls) = ls.flatten := by
  have hmem : ∀ c ∈ ls.flatten, basicChar c = true :=
    goodChars_mem _ (goodChars_flatten ls h)
  simp only [ExcelTokenizer.stripFormula]
  rw [show (renderLexemes ls).data = ls.flatten from rfl]
  rw [dropWhile_eq_self_of (fun c => c = '=') ls.flatten (fun c hc => by
    have := basicChar_ne c (hmem c hc) '=' (by decide)
    simp [this])]
  rw [dropWhile_eq_self_of Char.isWhitespace ls.flatten
    (fun c hc => basicChar_not_ws c (hmem c hc))]
  rw [dropWhile_eq_self_of Char.isWhitespace ls.flatten.reverse
    (fun c hc => basicChar_not_ws c (hmem c (List.mem_reverse.mp hc)))]
  rw [List.reverse_reverse]

/-- Claim C3: for every formula assembled from basic lexemes — numeric
literals, A1-style cell references, the operators `+ - * / ^ &`, and balanced
parentheses — the pipeline succeeds, the driver returns the converted SQL
unchanged (the catch-all error branch is unreachable), and, provided the
`column_mappings` values are themselves free of the comment opener `/*`, the
returned string contains no `/* ERROR` marker. -/
theorem claim_C3_no_error_on_basic_formulas
    (ls : List (List Char)) (cm sm : List (String × String)) (cur : String)
    (hls : ∀ l ∈ ls, is_basic_lexeme l = true)
    (_hbal : parenBalanced ls.flatten 0 = true)
    (hcm : ∀ p ∈ cm, noSS p.2.data = true) :
    ∃ out, formulaPipeline (renderLexemes ls) cm sm cur = .ok out ∧
      convert_excel_formula_to_sql (renderLexemes ls) cm sm cur = out ∧
      containsSub ('/' :: '*' :: ' ' :: 'E' :: 'R' :: 'R' :: 'O' :: 'R' :: [])
        out.data = false := by
  have hgood : goodChars (ExcelTokenizer.stripFormula (renderLexemes ls)) = true := by
    rw [stripFormula_renderLexemes ls hls]
    exact goodChars_flatten ls hls
  have hS := ExcelTokenizer.tokenize_safe (renderLexemes ls) hgood
  obtain ⟨a, hp, hsafe⟩ := ExcelParser.parse_safe
    (ExcelTokenizer.tokenize (renderLexemes ls))
    (tokenize_ne_nil (renderLexemes ls)) hS
  have hpipe : formulaPipeline (renderLexemes ls) cm sm cur
      = .ok (ExcelToSQLConverter.convert cm sm a cur) := by
    rw [formulaPipeline]
    simp only [hp, bind, Except.bind]
  refine ⟨ExcelToSQLConverter.convert cm sm a cur, hpipe, ?_, ?_⟩
  · rw [convert_excel_formula_to_sql]
    simp only [hpipe]
  · exact containsSub_slash_star _ _ (convert_node_safe cm sm cur hcm a hsafe)

/-- Concrete instance of the C3 theorem: `(1+A1)*B2` with empty mappings. -/
theorem claim_C3_witness :
    ∃ out, formulaPipeline (renderLexemes
        [['('], ['1'], ['+'], ['A', '1'], [')'], ['*'], ['B', '2']])
        [] [] "Sheet1" = .ok out ∧
      convert_excel_formula_to_sql (renderLexemes
        [['('], ['1'], ['+'], ['A', '1'], [')'], ['*'], ['B', '2']])
        [] [] "Sheet1" = out ∧
      containsSub ('/' :: '*' :: ' ' :: 'E' :: 'R' :: 'R' :: 'O' :: 'R' :: [])
        out.data = false :=
  claim_C3_no_error_on_basic_formulas
    [['('], ['1'], ['+'], ['A', '1'], [')'], ['*'], ['B', '2']] [] [] "Sheet1"
    (by decide) (by decide) (fun p hp => absurd hp (List.not_mem_nil p))
